import Mathlib

/-!
Verification of the front end of the toy-compiler repository: the tokenizer
(src/lex.py) and the Pratt parser (src/parse.py) are embedded shallowly and
the frozen claims about them are settled as theorems.

Modelling conventions:
* The Python cursor (`index`, `curr`) is represented as the current character
  (or token) together with the list of not-yet-visited input; `advance` pops
  the head of that list, exactly mirroring `index += 1`.
* Python exceptions become an `Error` sum returned through `Except`.
* Python `float` values are modelled as exact rationals: the lexer only ever
  builds numeric lexemes from digits and dots, and on that alphabet Python's
  `float` accepts a string iff it has at least one digit and at most one dot.
* The recursive-descent parser is expressed with an explicit recursion budget
  (`run fuel`), which keeps every definition kernel-computable; the budget
  chosen by `parse` is proved sufficient (`run_good`), so no `OutOfFuel`
  result ever escapes `parse`.
-/

/-- Token kinds, one constructor per member of `lex.TokenType`. -/
inductive TokenType where
  | IDENTIFIER | NUMBER | STRING | BOOL
  | LEFT_PARENTHESIS | RIGHT_PARENTHESIS | LEFT_CURLY | RIGHT_CURLY
  | ASSIGN | PLUS | DASH | SLASH | ASTERISK | MODULUS | COMMA | SEMICOLON
  | EQUAL | BANG | BANG_EQUAL | LESS | GREATER | LESS_EQUAL | GREATER_EQUAL
  | AND | OR
  | KEYWORD_FN | KEYWORD_LET | KEYWORD_IF | KEYWORD_ELSEIF | KEYWORD_ELSE
  | KEYWORD_RETURN
deriving DecidableEq

/-- Models `lex.Token`: a type tag plus an optional literal payload. -/
structure Token where
  type : TokenType
  literal : Option String := none
deriving DecidableEq

/-- The `expected` argument of `UnexpectedTokenError`: either a concrete token
type, or one of the Python classes the source passes in that position
(`Expression`, `Statement`, `lex.Token` in `Parser.consume`, and `Leaf.Kind`
in `Leaf.__init__`). -/
inductive Expected where
  | tokenType (t : TokenType)
  | expressionClass
  | statementClass
  | tokenClass
  | leafKindClass
deriving DecidableEq

/-- Every failure the two stages can produce.  `IllegalLexeme` models
`lex.IllegalLexemeError`, `UnexpectedToken` models `parse.UnexpectedTokenError`.
`AttributeError` models the Python `AttributeError` raised when
`Parser.parse_fn_call` reads `.value` off a left expression that has no such
attribute (`Binary`, `Block`, `FunctionCall`).  `ValueError` models the
`UNREACHABLE` guards of `parse_unary`/`parse_binary` and a failing `float()`
call in `Leaf.__init__`.  `OutOfFuel` is a model artifact: the parser runs on
an explicit recursion budget, and the budget used by `parse` is proved
sufficient below. -/
inductive Error where
  | IllegalLexeme (text : String)
  | UnexpectedToken (expected : Expected) (actual : Option Token)
  | AttributeError (objKind : String)
  | ValueError (msg : String)
  | OutOfFuel
deriving DecidableEq

deriving instance DecidableEq for Except

/-- The cursor state of `lex.Lexer`: `curr` is `self.curr`, `rest` the
characters strictly after `self.index`. The initial state is
`⟨'\x00', source.toList⟩` (Python starts with `index = -1`, `curr = '\0'`). -/
structure LState where
  curr : Char
  rest : List Char
deriving DecidableEq

/-- Models `Lexer.advance`: returns whether a character was available, plus the
updated state (the state is unchanged when the input is exhausted). -/
def LState.advance : LState → Bool × LState
  | ⟨c, []⟩ => (false, ⟨c, []⟩)
  | ⟨_, c :: r⟩ => (true, ⟨c, r⟩)

/-- Models `Lexer.peek` with the default `count = 1`. -/
def LState.peek (l : LState) : Option Char := l.rest.head?

/-- Loop body of `Lexer.read_identifier`: consume alphanumeric-or-underscore
characters, accumulating them. Returns the lexeme and the final state. -/
def read_ident_go (acc : String) (curr : Char) : List Char → String × LState
  | [] => (acc, ⟨curr, []⟩)
  | p :: r =>
    if p.isAlphanum || p == '_' then read_ident_go (acc.push p) p r
    else (acc, ⟨curr, p :: r⟩)

/-- Models `Lexer.read_identifier`. -/
def LState.read_identifier (st : LState) : String × LState :=
  read_ident_go (String.singleton st.curr) st.curr st.rest

/-- Digit value of a list of ASCII digit characters, most significant first. -/
def digitsVal (l : List Char) : Nat :=
  l.foldl (fun a c => a * 10 + (c.toNat - '0'.toNat)) 0

/-- Python `float(s)` acceptance, restricted to the strings `read_number` can
accumulate (digits and dots): accepted iff there is at least one digit and at
most one dot. -/
def pyFloatValid (s : String) : Bool :=
  s.toList.all (fun c => c.isDigit || c == '.') &&
  s.toList.any (fun c => c.isDigit) &&
  (s.toList.filter (fun c => c == '.')).length ≤ 1

/-- Python `float(s)` on the digit/dot fragment, as an exact rational:
integer part plus fractional part (the fraction-free branch is written
separately only so that integer literals stay kernel-reducible; it denotes
the same value). `none` models a raised `ValueError`. -/
def pyFloat (s : String) : Option ℚ :=
  if pyFloatValid s then
    let l := s.toList
    let ip := l.takeWhile (fun c => c != '.')
    let fp := (l.dropWhile (fun c => c != '.')).drop 1
    if fp.isEmpty then some (digitsVal ip : ℚ)
    else some ((digitsVal ip : ℚ) + (digitsVal fp : ℚ) / (10 : ℚ) ^ fp.length)
  else none

/-- Loop body of `Lexer.read_number`: consume digit-or-dot characters. -/
def read_num_go (acc : String) (curr : Char) : List Char → String × LState
  | [] => (acc, ⟨curr, []⟩)
  | p :: r =>
    if p.isDigit || p == '.' then read_num_go (acc.push p) p r
    else (acc, ⟨curr, p :: r⟩)

/-- Models `Lexer.read_number`: accumulate the lexeme, then validate it with
`float`; an invalid accumulation raises `IllegalLexemeError(number)`. -/
def LState.read_number (st : LState) : Except Error (String × LState) :=
  let (number, st') := read_num_go (String.singleton st.curr) st.curr st.rest
  if pyFloatValid number then .ok (number, st') else .error (.IllegalLexeme number)

/-- Loop of `Lexer.read_string`. The `Bool` result is the final value of the
`malformed` flag: `true` exactly when no `advance` ever succeeded. -/
def read_str_go (acc : String) (curr : Char) : List Char → String × Bool × LState
  | [] => (acc, true, ⟨curr, []⟩)
  | c :: r =>
    if c == '"' then (acc, false, ⟨c, r⟩)
    else
      let (s, _, st) := read_str_go (acc.push c) c r
      (s, false, st)

/-- Models `Lexer.read_string`: after the loop, the scan failed when the final
current character is not a closing quote or no advance happened, and the
error payload is the partial content prefixed with a quote. -/
def LState.read_string (st : LState) : Except Error (String × LState) :=
  let (string, malformed, st') := read_str_go "" st.curr st.rest
  if st'.curr != '"' || malformed then
    .error (.IllegalLexeme (String.singleton '"' ++ string))
  else .ok (string, st')

/-- The whitespace-skipping loop at the head of `Lexer.next_token`, entered
with the character obtained by the initial `advance`. -/
def skip_ws_go (c : Char) : List Char → Option LState
  | [] => if c.isWhitespace then none else some ⟨c, []⟩
  | c2 :: r => if c.isWhitespace then skip_ws_go c2 r else some ⟨c, c2 :: r⟩

/-- The keyword table in the identifier arm of `Lexer.next_token`. -/
def classify_ident (ident : String) : Token :=
  if ident == "true" || ident == "false" then ⟨.BOOL, some ident⟩
  else if ident == "if" then ⟨.KEYWORD_IF, none⟩
  else if ident == "elseif" then ⟨.KEYWORD_ELSEIF, none⟩
  else if ident == "else" then ⟨.KEYWORD_ELSE, none⟩
  else if ident == "return" then ⟨.KEYWORD_RETURN, none⟩
  else if ident == "fn" then ⟨.KEYWORD_FN, none⟩
  else if ident == "let" then ⟨.KEYWORD_LET, none⟩
  else ⟨.IDENTIFIER, some ident⟩

/-- The character dispatch of `Lexer.next_token` (its `match self.curr`
block), entered on the non-whitespace current character; follows the
source arm for arm. -/
def next_token_dispatch (st : LState) : Except Error (Option (Token × LState)) :=
  if st.curr == '(' then .ok (some (⟨.LEFT_PARENTHESIS, none⟩, st))
  else if st.curr == ')' then .ok (some (⟨.RIGHT_PARENTHESIS, none⟩, st))
  else if st.curr == '{' then .ok (some (⟨.LEFT_CURLY, none⟩, st))
  else if st.curr == '}' then .ok (some (⟨.RIGHT_CURLY, none⟩, st))
  else if st.curr == '+' then .ok (some (⟨.PLUS, none⟩, st))
  else if st.curr == '-' then .ok (some (⟨.DASH, none⟩, st))
  else if st.curr == '*' then .ok (some (⟨.ASTERISK, none⟩, st))
  else if st.curr == '/' then .ok (some (⟨.SLASH, none⟩, st))
  else if st.curr == '%' then .ok (some (⟨.MODULUS, none⟩, st))
  else if st.curr == ',' then .ok (some (⟨.COMMA, none⟩, st))
  else if st.curr == ';' then .ok (some (⟨.SEMICOLON, none⟩, st))
  else if st.curr == '"' then
    (st.read_string).map (fun p => some (⟨.STRING, some p.1⟩, p.2))
  else if st.curr == '=' && st.peek == some '=' then
    .ok (some (⟨.EQUAL, none⟩, (st.advance).2))
  else if st.curr == '=' then .ok (some (⟨.ASSIGN, none⟩, st))
  else if st.curr == '!' && st.peek == some '=' then
    .ok (some (⟨.BANG_EQUAL, none⟩, (st.advance).2))
  else if st.curr == '!' then .ok (some (⟨.BANG, none⟩, st))
  else if st.curr == '<' && st.peek == some '=' then
    .ok (some (⟨.LESS_EQUAL, none⟩, (st.advance).2))
  else if st.curr == '<' then .ok (some (⟨.LESS, none⟩, st))
  else if st.curr == '>' && st.peek == some '=' then
    .ok (some (⟨.GREATER_EQUAL, none⟩, (st.advance).2))
  else if st.curr == '>' then .ok (some (⟨.GREATER, none⟩, st))
  else if st.curr == '&' && st.peek == some '&' then
    .ok (some (⟨.AND, none⟩, (st.advance).2))
  else if st.curr == '|' && st.peek == some '|' then
    .ok (some (⟨.OR, none⟩, (st.advance).2))
  else if st.curr.isAlpha then
    let (ident, st') := st.read_identifier
    .ok (some (classify_ident ident, st'))
  else if st.curr.isDigit || st.curr == '.' then
    (st.read_number).map (fun p => some (⟨.NUMBER, some p.1⟩, p.2))
  else .error (.IllegalLexeme (String.singleton st.curr))

/-- Models `Lexer.next_token`: `ok none` is Python's `None` (end of input: the
initial `advance` fails or whitespace-skipping runs off the end). -/
def LState.next_token (st : LState) : Except Error (Option (Token × LState)) :=
  match st.rest with
  | [] => .ok none
  | c :: r =>
    match skip_ws_go c r with
    | none => .ok none
    | some st => next_token_dispatch st

/-- Models `Lexer.build_tokens`, with an explicit recursion budget.  Each loop
iteration strictly consumes input (`next_token_spec`), so the budget chosen
by `tokenize` is sufficient. -/
def build_tokens : Nat → LState → Except Error (List Token)
  | 0, _ => .error .OutOfFuel
  | fuel + 1, st =>
    match st.next_token with
    | .error e => .error e
    | .ok none => .ok []
    | .ok (some (t, st')) => (build_tokens fuel st').map (fun l => t :: l)

/-- The tokenizer entry point: `lex.Lexer(source).build_tokens()`. -/
def tokenize (source : String) : Except Error (List Token) :=
  build_tokens (source.length + 1) ⟨'\x00', source.toList⟩

/-- Models `parse.Precedence`. -/
inductive Precedence where
  | LOWEST | EQUALS | LESSGREATER | SUM | PRODUCT | LOGICAL | PRE | CALL
deriving DecidableEq

/-- The numeric `auto()` value of each `Precedence` member (1 to 8); the
constructor `PRE` models the source's unary level (the one sitting between
`LOGICAL` and `CALL`). -/
def Precedence.value : Precedence → Nat
  | .LOWEST => 1
  | .EQUALS => 2
  | .LESSGREATER => 3
  | .SUM => 4
  | .PRODUCT => 5
  | .LOGICAL => 6
  | .PRE => 7
  | .CALL => 8

/-- Models `parse.Leaf.Kind`. -/
inductive LeafKind where
  | IDENTIFIER | STRING | BOOL | NUMBER
deriving DecidableEq

/-- Models `parse.Unary.Operation`. -/
inductive UnaryOp where
  | NOT | NEGATE
deriving DecidableEq

/-- Models `parse.Binary.Operation`. -/
inductive BinaryOp where
  | ADD | SUBTRACT | MULTIPLY | DIVIDE | MODULO
  | LESS | GREATER | LESS_EQUAL | GREATER_EQUAL
  | EQUAL | NOT_EQUAL | AND | OR
deriving DecidableEq

/-- The dynamic value stored in `Leaf.value`: a Python `str`, `bool` or
`float` (the latter modelled as an exact rational). -/
inductive Value where
  | str (s : String)
  | bool (b : Bool)
  | num (q : ℚ)
deriving DecidableEq

mutual
/-- What `Parser.parse_fn_call` actually stores in `FunctionCall.name`: the
`.value` attribute of the left expression.  For `Identifier` and `Leaf`
that is a plain value; for `Unary` the `value` attribute is the operand
expression itself. -/
inductive CallName where
  | val (v : Value)
  | exprVal (e : Expression)

/-- The expression family of AST nodes, one constructor per class of
`parse.py` deriving `Expression`. `Block` bodies and `If`/`FunctionDef`
bodies are `Expression.Block` values, matching `parse_block`'s result. -/
inductive Expression where
  | Identifier (value : String)
  | Leaf (kind : LeafKind) (value : Value)
  | Unary (operation : UnaryOp) (value : Expression)
  | Binary (left : Expression) (operation : BinaryOp) (right : Expression)
  | Block (body : List Statement)
  | FunctionCall (name : CallName) (arguments : List Expression)

/-- The statement family of AST nodes.  `If.alternatives` keeps the
insertion order of the Python dict. -/
inductive Statement where
  | If (main : Expression × Expression)
       (alternatives : List (Expression × Expression))
       (fallback : Option Expression)
  | FunctionDef (name : String) (arguments : List String) (body : Expression)
  | Wrapper (value : Expression)
  | Let (identifier : String) (value : Expression)
  | Return (value : Option Expression)
end

/-- The `.value` attribute read by `parse_fn_call` on its left expression;
classes without such an attribute make Python raise `AttributeError`. -/
def Expression.valueAttr : Expression → Except Error CallName
  | .Identifier s => .ok (.val (.str s))
  | .Leaf _ v => .ok (.val v)
  | .Unary _ e => .ok (.exprVal e)
  | .Binary _ _ _ => .error (.AttributeError "Binary")
  | .Block _ => .error (.AttributeError "Block")
  | .FunctionCall _ _ => .error (.AttributeError "FunctionCall")

/-- Models `Leaf.__init__`: classify the token and parse its payload; a non-literal
token raises `UnexpectedTokenError(Leaf.Kind, token)`, and a `NUMBER` token
whose literal `float` rejects raises the corresponding Python error. -/
def Leaf_init (t : Token) : Except Error Expression :=
  match t.type with
  | .STRING => .ok (.Leaf .STRING (.str (t.literal.getD "")))
  | .BOOL => .ok (.Leaf .BOOL (.bool (t.literal == some "true")))
  | .NUMBER =>
    match t.literal with
    | none => .error (.ValueError "float(None)")
    | some s =>
      match pyFloat s with
      | some q => .ok (.Leaf .NUMBER (.num q))
      | none => .error (.ValueError "float")
  | _ => .error (.UnexpectedToken .leafKindClass (some t))

/-- The cursor state of `parse.Parser`, with the same representation as
`LState`: `curr` is `self.curr`, `rest` the tokens strictly after
`self.index`.  The initial `self.curr` is Python `None`; it is never read
before the first `advance`, so any placeholder token works. -/
structure PState where
  curr : Token
  rest : List Token
deriving DecidableEq

/-- Models `Parser.advance`. -/
def PState.advance : PState → Bool × PState
  | ⟨c, []⟩ => (false, ⟨c, []⟩)
  | ⟨_, t :: r⟩ => (true, ⟨t, r⟩)

/-- Models `Parser.consume`: advance or raise `UnexpectedTokenError(lex.Token, None)`. -/
def PState.consume : PState → Except Error (Token × PState)
  | ⟨_, []⟩ => .error (.UnexpectedToken .tokenClass none)
  | ⟨_, t :: r⟩ => .ok (t, ⟨t, r⟩)

/-- Models `Parser.peek` with the default `count = 1`. -/
def PState.peek (st : PState) : Option Token := st.rest.head?

/-- Models `Parser.match`: advance past the peeked token when it has the wanted
type, otherwise leave the state unchanged and return `None`. -/
def PState.matchTok (st : PState) (ty : TokenType) : Option (Token × PState) :=
  match st.rest with
  | [] => none
  | t :: r => if t.type == ty then some (t, ⟨t, r⟩) else none

/-- Models `Parser.expect_current`: check the current token's type without moving. -/
def PState.expect_current (st : PState) (ty : TokenType) : Except Error Token :=
  if st.curr.type == ty then .ok st.curr
  else .error (.UnexpectedToken (.tokenType ty) (some st.curr))

/-- Models `Parser.expect`: advance, then check; when the input is exhausted the
error carries the unchanged `self.curr`. -/
def PState.expect (st : PState) (ty : TokenType) : Except Error (Token × PState) :=
  match st.rest with
  | [] => .error (.UnexpectedToken (.tokenType ty) (some st.curr))
  | t :: r =>
    if t.type == ty then .ok (t, ⟨t, r⟩)
    else .error (.UnexpectedToken (.tokenType ty) (some t))

/-- The registered expression-leading rules (the `self.prefix_parsers`
dictionary of `Parser.__init__`), keyed by token type. -/
inductive NudRule where
  | identifierRule | leafRule | unaryRule | groupedRule | blockRule
deriving DecidableEq

/-- The `self.prefix_parsers` table: which rule, if any, may begin an
expression at a given token type. -/
def nudRules : TokenType → Option NudRule
  | .IDENTIFIER => some .identifierRule
  | .STRING => some .leafRule
  | .BOOL => some .leafRule
  | .NUMBER => some .leafRule
  | .BANG => some .unaryRule
  | .DASH => some .unaryRule
  | .LEFT_PARENTHESIS => some .groupedRule
  | .LEFT_CURLY => some .blockRule
  | _ => none

/-- The registered infix rules (the `self.infix_parsers` dictionary). -/
inductive LedRule where
  | binaryRule | fnCallRule
deriving DecidableEq

/-- The `self.infix_parsers` table. -/
def ledRules : TokenType → Option LedRule
  | .PLUS => some .binaryRule
  | .DASH => some .binaryRule
  | .ASTERISK => some .binaryRule
  | .SLASH => some .binaryRule
  | .MODULUS => some .binaryRule
  | .LESS => some .binaryRule
  | .GREATER => some .binaryRule
  | .LESS_EQUAL => some .binaryRule
  | .GREATER_EQUAL => some .binaryRule
  | .EQUAL => some .binaryRule
  | .BANG_EQUAL => some .binaryRule
  | .AND => some .binaryRule
  | .OR => some .binaryRule
  | .LEFT_PARENTHESIS => some .fnCallRule
  | _ => none

/-- The `self.infix_precedences` table. -/
def ledPrecedences : TokenType → Option Precedence
  | .EQUAL => some .EQUALS
  | .BANG_EQUAL => some .EQUALS
  | .LESS => some .LESSGREATER
  | .GREATER => some .LESSGREATER
  | .LESS_EQUAL => some .LESSGREATER
  | .GREATER_EQUAL => some .LESSGREATER
  | .PLUS => some .SUM
  | .DASH => some .SUM
  | .SLASH => some .PRODUCT
  | .ASTERISK => some .PRODUCT
  | .MODULUS => some .PRODUCT
  | .AND => some .LOGICAL
  | .OR => some .LOGICAL
  | .LEFT_PARENTHESIS => some .CALL
  | _ => none

/-- Models `Parser.get_current_precedence`. -/
def PState.get_current_precedence (st : PState) : Precedence :=
  (ledPrecedences st.curr.type).getD .LOWEST

/-- Models `Parser.get_peek_precedence`. -/
def PState.get_peek_precedence (st : PState) : Precedence :=
  match st.rest.head? with
  | some t => (ledPrecedences t.type).getD .LOWEST
  | none => .LOWEST

/-- The recursion points of the parser: the mutually recursive entries the
explicit-budget interpreter `run` can be asked for.  `expression` is
`Parser.parse_expression`; the `Loop` constructors are the `while` loops of
`parse_expression`, `parse_block`, `parse_fn_call`, `parse_if` (its `elseif`
chain) and `Parser.build_tree`, with their accumulated local state. -/
inductive PMode where
  | expression (precedence : Precedence)
  | exprLoop (precedence : Precedence) (left : Expression)
  | blockLoop (statements : List Statement)
  | fnCallLoop (left : Expression) (args : List Expression)
  | ifLoop (main : Expression × Expression)
           (alternatives : List (Expression × Expression))
  | topLoop (statements : List Statement)

/-- Result type of each recursion point. -/
@[reducible] def POut : PMode → Type
  | .expression _ => Expression
  | .exprLoop _ _ => Expression
  | .blockLoop _ => Expression
  | .fnCallLoop _ _ => Expression
  | .ifLoop _ _ => Statement
  | .topLoop _ => List Statement

/-- A recursor: how the parser's functions reach their mutually recursive
entries. -/
def RecT : Type := (m : PMode) → PState → Except Error (POut m × PState)

/-- Models `Parser.parse_identifier`. -/
def parse_identifier (st : PState) : Except Error (Expression × PState) :=
  .ok (.Identifier (st.curr.literal.getD ""), st)

/-- Models `Parser.parse_leaf`. -/
def parse_leaf (st : PState) : Except Error (Expression × PState) :=
  (Leaf_init st.curr).map (fun e => (e, st))

/-- The operation match at the head of `Parser.parse_unary`; the default arm
is the source's `UNREACHABLE` `ValueError`, proved unreachable below. -/
def unary_operation (ty : TokenType) : Except Error UnaryOp :=
  match ty with
  | .BANG => .ok .NOT
  | .DASH => .ok .NEGATE
  | _ => .error (.ValueError "UNREACHABLE Parser.parse_unary")

/-- Models `Parser.parse_unary`. -/
def parse_unary (rec : RecT) (st : PState) : Except Error (Expression × PState) := do
  let operation ← unary_operation st.curr.type
  let (_, st1) ← st.consume
  let (value, st2) ← rec (.expression .PRE) st1
  .ok (.Unary operation value, st2)

/-- The operation match at the head of `Parser.parse_binary`; the default
arm is the source's `UNREACHABLE` `ValueError`, proved unreachable below. -/
def binary_operation (ty : TokenType) : Except Error BinaryOp :=
  match ty with
  | .PLUS => .ok .ADD
  | .DASH => .ok .SUBTRACT
  | .ASTERISK => .ok .MULTIPLY
  | .SLASH => .ok .DIVIDE
  | .MODULUS => .ok .MODULO
  | .LESS => .ok .LESS
  | .GREATER => .ok .GREATER
  | .LESS_EQUAL => .ok .LESS_EQUAL
  | .GREATER_EQUAL => .ok .GREATER_EQUAL
  | .EQUAL => .ok .EQUAL
  | .BANG_EQUAL => .ok .NOT_EQUAL
  | .AND => .ok .AND
  | .OR => .ok .OR
  | _ => .error (.ValueError "UNREACHABLE Parser.parse_binary")

/-- Models `Parser.parse_binary`. -/
def parse_binary (rec : RecT) (left : Expression) (st : PState) :
    Except Error (Expression × PState) := do
  let operation ← binary_operation st.curr.type
  let precedence := st.get_current_precedence
  let (_, st1) ← st.consume
  let (right, st2) ← rec (.expression precedence) st1
  .ok (.Binary left operation right, st2)

/-- Models `Parser.parse_grouped`. -/
def parse_grouped (rec : RecT) (st : PState) : Except Error (Expression × PState) := do
  let (_, st1) ← st.consume
  let (expression, st2) ← rec (.expression .LOWEST) st1
  let (_, st3) ← st2.expect .RIGHT_PARENTHESIS
  .ok (expression, st3)

/-- Models `Parser.parse_block` (delegates to its loop). -/
def parse_block (rec : RecT) (st : PState) : Except Error (Expression × PState) :=
  rec (.blockLoop []) st

/-- Models `Parser.parse_fn_call`: consume past the `(`, then run the argument
loop. -/
def parse_fn_call (rec : RecT) (left : Expression) (st : PState) :
    Except Error (Expression × PState) := do
  let (_, st1) ← st.consume
  rec (.fnCallLoop left []) st1

/-- Shared tail of `parse_fn_call`: the `expect_current(RIGHT_PARENTHESIS)`
after the loop, then construction of the node, whose `name` is the `.value`
attribute of the left expression. -/
def fn_call_finish (left : Expression) (args : List Expression) (st : PState) :
    Except Error (Expression × PState) := do
  let _ ← st.expect_current .RIGHT_PARENTHESIS
  let name ← left.valueAttr
  .ok (.FunctionCall name args, st)

/-- Models `Parser.parse_wrapper`. -/
def parse_wrapper (rec : RecT) (st : PState) : Except Error (Statement × PState) := do
  let (value, st1) ← rec (.expression .LOWEST) st
  let (_, st2) ← st1.expect .SEMICOLON
  .ok (.Wrapper value, st2)

/-- Models `Parser.parse_let`. -/
def parse_let (rec : RecT) (st : PState) : Except Error (Statement × PState) := do
  let (identTok, st1) ← st.expect .IDENTIFIER
  let (_, st2) ← st1.expect .ASSIGN
  let (_, st3) ← st2.consume
  let (value, st4) ← rec (.expression .LOWEST) st3
  let (_, st5) ← st4.expect .SEMICOLON
  .ok (.Let (identTok.literal.getD "") value, st5)

/-- Models `Parser.parse_return`. -/
def parse_return (rec : RecT) (st : PState) : Except Error (Statement × PState) :=
  match st.matchTok .SEMICOLON with
  | some (_, st1) => .ok (.Return none, st1)
  | none => do
    let (_, st1) ← st.consume
    let (value, st2) ← rec (.expression .LOWEST) st1
    let (_, st3) ← st2.expect .SEMICOLON
    .ok (.Return (some value), st3)

/-- The parameter loop of `Parser.parse_fn_def`; it makes no recursive parse
calls, so it is a plain structural recursion over the remaining tokens.
`curr`/`rest` play the role of the parser state inside the loop. -/
def fn_def_params_go (args : List String) (curr : Token) :
    List Token → Except Error (List String × PState)
  | [] =>
    if curr.type == .RIGHT_PARENTHESIS then .ok (args, ⟨curr, []⟩)
    else if curr.type == .IDENTIFIER then
      .error (.UnexpectedToken (.tokenType .RIGHT_PARENTHESIS) (some curr))
    else .error (.UnexpectedToken (.tokenType .IDENTIFIER) (some curr))
  | t :: r =>
    if curr.type == .RIGHT_PARENTHESIS then .ok (args, ⟨curr, t :: r⟩)
    else if curr.type == .IDENTIFIER then
      let args' := args ++ [curr.literal.getD ""]
      if t.type == .COMMA then
        match r with
        | [] => .error (.UnexpectedToken .tokenClass none)
        | t2 :: r2 => fn_def_params_go args' t2 r2
      else if t.type == .RIGHT_PARENTHESIS then .ok (args', ⟨t, r⟩)
      else .error (.UnexpectedToken (.tokenType .RIGHT_PARENTHESIS) (some t))
    else .error (.UnexpectedToken (.tokenType .IDENTIFIER) (some curr))

/-- Models `Parser.parse_fn_def`. -/
def parse_fn_def (rec : RecT) (st : PState) : Except Error (Statement × PState) := do
  let (nameTok, st1) ← st.expect .IDENTIFIER
  let (_, st2) ← st1.expect .LEFT_PARENTHESIS
  let (_, st3) ← st2.consume
  let (args, st4) ← fn_def_params_go [] st3.curr st3.rest
  let (_, st5) ← st4.expect .LEFT_CURLY
  let (body, st6) ← parse_block rec st5
  let (_, st7) ← st6.expect .SEMICOLON
  .ok (.FunctionDef (nameTok.literal.getD "") args body, st7)

/-- Models `Parser.parse_if` up to its `elseif` loop (which is `PMode.ifLoop`). -/
def parse_if (rec : RecT) (st : PState) : Except Error (Statement × PState) := do
  let (_, st1) ← st.consume
  let (condition, st2) ← rec (.expression .LOWEST) st1
  let (_, st3) ← st2.expect .LEFT_CURLY
  let (consequence, st4) ← parse_block rec st3
  let (_, st5) ← st4.consume
  rec (.ifLoop (condition, consequence) []) st5

/-- Models `Parser.parse_statement`: dispatch on the current token's type. -/
def parse_statement (rec : RecT) (st : PState) : Except Error (Statement × PState) :=
  match st.curr.type with
  | .KEYWORD_IF => parse_if rec st
  | .KEYWORD_RETURN => parse_return rec st
  | .KEYWORD_LET => parse_let rec st
  | .KEYWORD_FN => parse_fn_def rec st
  | _ => parse_wrapper rec st

/-- Body of `Parser.parse_expression`: prefix dispatch (raising
`UnexpectedTokenError(Expression, curr)` when no rule is registered), then
the infix loop. -/
def parse_expression (rec : RecT) (precedence : Precedence) (st : PState) :
    Except Error (Expression × PState) := do
  let (left, st1) ←
    match nudRules st.curr.type with
    | none => Except.error (.UnexpectedToken .expressionClass (some st.curr))
    | some .identifierRule => parse_identifier st
    | some .leafRule => parse_leaf st
    | some .unaryRule => parse_unary rec st
    | some .groupedRule => parse_grouped rec st
    | some .blockRule => parse_block rec st
  rec (.exprLoop precedence left) st1

/-- One pass of `parse_expression`'s `while` loop: stop at end of input, at a
semicolon, when the context precedence is not strictly smaller than the
peeked precedence, or when the peeked token has no infix rule; otherwise
consume and apply the infix rule, then continue with the new left. -/
def expr_loop (rec : RecT) (precedence : Precedence) (left : Expression)
    (st : PState) : Except Error (Expression × PState) :=
  match st.rest.head? with
  | none => .ok (left, st)
  | some peek =>
    if peek.type == .SEMICOLON then .ok (left, st)
    else if decide (precedence.value ≥ st.get_peek_precedence.value) then .ok (left, st)
    else
      match ledRules peek.type with
      | none => .ok (left, st)
      | some rule => do
        let (_, st1) ← st.consume
        let (left', st2) ←
          match rule with
          | .binaryRule => parse_binary rec left st1
          | .fnCallRule => parse_fn_call rec left st1
        rec (.exprLoop precedence left') st2

/-- One pass of `parse_block`'s loop: consume; a `}` closes the block,
anything else must parse as a statement. -/
def block_loop (rec : RecT) (acc : List Statement) (st : PState) :
    Except Error (Expression × PState) := do
  let (t, st1) ← st.consume
  if t.type == .RIGHT_CURLY then .ok (.Block acc, st1)
  else do
    let (s, st2) ← parse_statement rec st1
    rec (.blockLoop (acc ++ [s])) st2

/-- One pass of `parse_fn_call`'s argument loop. -/
def fn_call_loop (rec : RecT) (left : Expression) (args : List Expression)
    (st : PState) : Except Error (Expression × PState) :=
  if st.curr.type == .RIGHT_PARENTHESIS then fn_call_finish left args st
  else do
    let (e, st1) ← rec (.expression .LOWEST) st
    match st1.matchTok .COMMA with
    | none => do
      let (_, st2) ← st1.expect .RIGHT_PARENTHESIS
      fn_call_finish left (args ++ [e]) st2
    | some (_, st2) => do
      let _ ← st2.expect_current .COMMA
      let (_, st3) ← st2.consume
      rec (.fnCallLoop left (args ++ [e])) st3

/-- One pass of `parse_if`'s `elseif` loop, then the optional `else` branch
and the terminating `expect_current(SEMICOLON)`. -/
def if_loop (rec : RecT) (main : Expression × Expression)
    (alternatives : List (Expression × Expression)) (st : PState) :
    Except Error (Statement × PState) :=
  if st.curr.type == .KEYWORD_ELSEIF then do
    let (_, st1) ← st.consume
    let (condition, st2) ← rec (.expression .LOWEST) st1
    let (_, st3) ← st2.expect .LEFT_CURLY
    let (consequence, st4) ← parse_block rec st3
    let (_, st5) ← st4.consume
    rec (.ifLoop main (alternatives ++ [(condition, consequence)])) st5
  else if st.curr.type == .KEYWORD_ELSE then do
    let (_, st1) ← st.expect .LEFT_CURLY
    let (fallback, st2) ← parse_block rec st1
    let (_, st3) ← st2.consume
    let _ ← st3.expect_current .SEMICOLON
    .ok (.If main alternatives (some fallback), st3)
  else do
    let _ ← st.expect_current .SEMICOLON
    .ok (.If main alternatives none, st)

/-- One pass of `Parser.build_tree`'s loop: parse a statement (the source's
`is not None` check is dead code, `parse_statement` always returns a
statement or raises), then advance or finish. -/
def top_loop (rec : RecT) (acc : List Statement) (st : PState) :
    Except Error (List Statement × PState) := do
  let (s, st1) ← parse_statement rec st
  let acc' := acc ++ [s]
  match st1.advance with
  | (false, _) => .ok (acc', st1)
  | (true, st2) => rec (.topLoop acc') st2

/-- One layer of the parser's mutual recursion. -/
def step (rec : RecT) : RecT := fun m =>
  match m with
  | .expression precedence => parse_expression rec precedence
  | .exprLoop precedence left => expr_loop rec precedence left
  | .blockLoop acc => block_loop rec acc
  | .fnCallLoop left args => fn_call_loop rec left args
  | .ifLoop main alternatives => if_loop rec main alternatives
  | .topLoop acc => top_loop rec acc

/-- The parser's recursion, cut off at an explicit depth budget. -/
def run : Nat → RecT
  | 0 => fun _ _ => .error .OutOfFuel
  | n + 1 => step (run n)

/-- The recursion budget `parse` grants; proved sufficient in `run_good`. -/
def parseFuel (tokens : List Token) : Nat := 8 * tokens.length + 8

/-- Models `Parser.build_tree` over a token list (the entry point `parse(tokens)`).
The placeholder initial `curr` is never read: an empty input returns `[]`
before any token access, mirroring the `None` initial cursor. -/
def parse (tokens : List Token) : Except Error (List Statement) :=
  match PState.advance ⟨⟨.SEMICOLON, none⟩, tokens⟩ with
  | (false, _) => .ok []
  | (true, st) => (run (parseFuel tokens) (.topLoop []) st).map (fun p => p.1)

/-- The full pipeline: tokenize, then parse. -/
def tokenizeParse (source : String) : Except Error (List Statement) :=
  (tokenize source).bind parse

/-- Modelled from the spec: the numeric-literal pattern of §3, a string
matching the regular expression of digit-star, optional dot, digit-plus
with at most one decimal point.  This definition follows the spec's words
and is compared against what the tokenizer actually accepts. -/
def specNumForm (s : String) : Bool :=
  s.toList.all (fun c => c.isDigit || c == '.') &&
  s.toList.any (fun c => c.isDigit) &&
  (s.toList.filter (fun c => c == '.')).length ≤ 1 &&
  (match s.toList.getLast? with
   | some c => c.isDigit
   | none => false)

/-- The only token shape the parser's `Leaf` constructor can choke on at
runtime: a `NUMBER` token must carry a literal that `float` accepts.  The
lexer only ever emits such tokens (`next_token_spec`). -/
def Token.wf (t : Token) : Bool :=
  match t.type, t.literal with
  | .NUMBER, some s => pyFloatValid s
  | .NUMBER, none => false
  | _, _ => true

/-- All tokens of a list are well-formed. -/
def TokensWF (l : List Token) : Prop := ∀ t ∈ l, t.wf = true

/-- Parser-state well-formedness: the cursor and all remaining tokens. -/
def Good (st : PState) : Prop := st.curr.wf = true ∧ TokensWF st.rest

/-- The failure kinds that can genuinely escape a tokenize-then-parse call:
the two declared exception classes plus the `AttributeError` of
`parse_fn_call`.  The `UNREACHABLE` `ValueError`s and the model's
`OutOfFuel` are proved impossible. -/
def Error.escapable : Error → Bool
  | .IllegalLexeme _ => true
  | .UnexpectedToken _ _ => true
  | .AttributeError _ => true
  | .ValueError _ => false
  | .OutOfFuel => false

/-- A pipeline outcome is allowed when it is a result or an escapable
error. -/
def allowedResult {α : Type} : Except Error α → Bool
  | .ok _ => true
  | .error e => e.escapable

/-- Outcome contract of every parser routine started in state `st`: on
success the final state is well-formed and no longer than the start state;
on failure the error is one of the escapable kinds. -/
def resultGood {α : Type} (st : PState) : Except Error (α × PState) → Prop
  | .ok p => Good p.2 ∧ p.2.rest.length ≤ st.rest.length
  | .error e => e.escapable = true

/-- Rank used to order the recursion points that can call one another
without consuming a token: `expression` is entered from `fnCallLoop` and
from the statement routines under `topLoop` at the same state, and enters
its own `exprLoop` at the same state. -/
def modeRank : PMode → Nat
  | .exprLoop _ _ => 0
  | .blockLoop _ => 0
  | .ifLoop _ _ => 0
  | .expression _ => 1
  | .fnCallLoop _ _ => 2
  | .topLoop _ => 2

/-- A recursor is good up to budget `n` when every entry reached with enough
remaining budget satisfies the outcome contract. -/
def RecGood (n : Nat) (rec : RecT) : Prop :=
  ∀ m st, Good st → 8 * st.rest.length + modeRank m < n → resultGood st (rec m st)

/-- Claim C1, counterexample: for the token sequence of `"a && b == c;"`,
parse does not return `Binary(a, AND, Binary(b, EQUAL, c))` — because
`LOGICAL` binds tighter than `EQUALS`, the `&&` node is built first and ends
up as the left child of `==`, not its parent. -/
theorem claim1_counterexample :
    tokenizeParse "a && b == c;" ≠
      .ok [.Wrapper (.Binary (.Identifier "a") .AND
            (.Binary (.Identifier "b") .EQUAL (.Identifier "c")))] := by
  rw [show tokenizeParse "a && b == c;" =
        .ok [.Wrapper (.Binary (.Binary (.Identifier "a") .AND (.Identifier "b"))
              .EQUAL (.Identifier "c"))] from rfl]
  simp

/-- Claim C1, amended: for the token sequence of `"a && b == c;"`, parse
returns exactly one expression statement whose expression is
`Binary(Binary(a, AND, b), EQUAL, c)`: with `LOGICAL` binding tighter than
`EQUALS`, `a && b` groups first and the `==` node is the root. -/
theorem claim1_amended :
    tokenizeParse "a && b == c;" =
      .ok [.Wrapper (.Binary (.Binary (.Identifier "a") .AND (.Identifier "b"))
            .EQUAL (.Identifier "c"))] := rfl

/-- Claim C3, counterexample: parsing the tokens of `"f(a,);"` does not fail
with `UnexpectedToken` — the call succeeds and returns the `FunctionCall`
node, so a trailing comma before `)` is accepted. -/
theorem claim3_counterexample :
    tokenizeParse "f(a,);" =
      .ok [.Wrapper (.FunctionCall (.val (.str "f")) [.Identifier "a"])] := rfl

/-- Claim C3, amended: a comma immediately followed by the closing
parenthesis ends the argument list and parse succeeds, returning the
`FunctionCall` with the arguments collected before that comma: after
`match(COMMA)` succeeds, `consume` lands on `)` and the loop's guard exits
normally. -/
theorem claim3_amended (f a : String) :
    parse [⟨.IDENTIFIER, some f⟩, ⟨.LEFT_PARENTHESIS, none⟩, ⟨.IDENTIFIER, some a⟩,
           ⟨.COMMA, none⟩, ⟨.RIGHT_PARENTHESIS, none⟩, ⟨.SEMICOLON, none⟩] =
      .ok [.Wrapper (.FunctionCall (.val (.str f)) [.Identifier a])] := rfl

/-- Claim C5: the call infix rule fires on `(` after any parsed left
expression; for `"5(1);"` parse succeeds and the `FunctionCall.name` field
holds the numeric leaf's value `5.0`, not an identifier string. -/
theorem claim5_call_name_not_identifier :
    tokenizeParse "5(1);" =
      .ok [.Wrapper (.FunctionCall (.val (.num 5)) [.Leaf .NUMBER (.num 1)])] := rfl

/-- Claim C7: `"fn add(x, y) { return x + y; };"` parses to exactly one
`FunctionDef` with name `add`, parameters `[x, y]` in order, and body
`Block([Return(Binary(x, ADD, y))])`, the trailing semicolon after `}`
included. -/
theorem claim7_function_roundtrip :
    tokenizeParse "fn add(x, y) { return x + y; };" =
      .ok [.FunctionDef "add" ["x", "y"]
            (.Block [.Return (some (.Binary (.Identifier "x") .ADD (.Identifier "y")))])] := rfl

/-- Claim C8: `"-a + b * c;"` parses to
`Binary(Unary(NEGATE, a), ADD, Binary(b, MULTIPLY, c))`: unary binds
tighter than every binary operator, and `PRODUCT` tighter than `SUM`. -/
theorem claim8_unary_precedence :
    tokenizeParse "-a + b * c;" =
      .ok [.Wrapper (.Binary (.Unary .NEGATE (.Identifier "a")) .ADD
            (.Binary (.Identifier "b") .MULTIPLY (.Identifier "c")))] := rfl

/-- Claim C9: `"a - b - c;"` parses left-associated, to
`Binary(Binary(a, SUBTRACT, b), SUBTRACT, c)`, because an infix rule only
fires when the peeked precedence is strictly greater than the context. -/
theorem claim9_left_assoc :
    tokenizeParse "a - b - c;" =
      .ok [.Wrapper (.Binary (.Binary (.Identifier "a") .SUBTRACT (.Identifier "b"))
            .SUBTRACT (.Identifier "c"))] := rfl

/-- Claim C10: parsing `"let x = ;"` fails with `UnexpectedToken` whose
expected field is the abstract `Expression` category and whose actual field
is the semicolon token: no expression-leading rule exists for `;`. -/
theorem claim10_let_error_shape :
    tokenizeParse "let x = ;" =
      .error (.UnexpectedToken .expressionClass (some ⟨.SEMICOLON, none⟩)) := rfl

theorem beq_eq_false_of_digit (c d : Char) (h : c.isDigit = true)
    (hd : d.isDigit = false) : (c == d) = false := by
  cases hbeq : c == d
  · rfl
  · rw [beq_iff_eq] at hbeq
    subst hbeq
    rw [h] at hd
    cases hd

theorem digit_not_ws (c : Char) (h : c.isDigit = true) : c.isWhitespace = false := by
  cases hw : c.isWhitespace
  · rfl
  · exfalso
    have hw' : ((c = ' ' ∨ c = '\t') ∨ c = '\x0d') ∨ c = '\n' := by
      simpa [Char.isWhitespace] using hw
    rcases hw' with ((rfl | rfl) | rfl) | rfl <;> exact absurd h (by decide)

theorem digit_not_alpha (c : Char) (h : c.isDigit = true) : c.isAlpha = false := by
  simp only [Char.isDigit, Bool.and_eq_true, decide_eq_true_eq, ge_iff_le,
    UInt32.le_def, BitVec.le_def] at h
  simp only [Char.isAlpha, Char.isUpper, Char.isLower, Bool.or_eq_false_iff,
    Bool.and_eq_false_iff, decide_eq_false_iff_not, not_le, ge_iff_le,
    UInt32.le_def, BitVec.le_def,
    show (UInt32.toBitVec 48).toNat = 48 from rfl,
    show (UInt32.toBitVec 57).toNat = 57 from rfl,
    show (UInt32.toBitVec 65).toNat = 65 from rfl,
    show (UInt32.toBitVec 90).toNat = 90 from rfl,
    show (UInt32.toBitVec 97).toNat = 97 from rfl,
    show (UInt32.toBitVec 122).toNat = 122 from rfl] at *
  omega

theorem push_append_mk (acc : String) (c : Char) (cs : List Char) :
    (acc.push c) ++ String.mk cs = acc ++ String.mk (c :: cs) := by
  cases acc
  show String.mk _ = String.mk _
  simp [String.push, String.append]

theorem append_mk_nil (acc : String) : acc ++ String.mk [] = acc := by
  cases acc
  show String.mk _ = String.mk _
  simp [String.append]

theorem getLastD_mem (cs : List Char) (hne : cs ≠ []) (d : Char) :
    cs.getLastD d ∈ cs := by
  rw [List.getLastD_eq_getLast?, List.getLast?_eq_getLast cs hne]
  exact List.getLast_mem hne

theorem skip_ws_go_not (c : Char) (h : c.isWhitespace = false) (rest : List Char) :
    skip_ws_go c rest = some ⟨c, rest⟩ := by
  cases rest <;> simp [skip_ws_go, h]

theorem read_str_go_noquote (cs : List Char) : ∀ (acc : String) (curr : Char),
    '"' ∉ cs →
    read_str_go acc curr cs =
      (acc ++ String.mk cs, cs.isEmpty, ⟨cs.getLastD curr, []⟩) := by
  induction cs with
  | nil =>
    intro acc curr _
    simp [read_str_go, List.getLastD, append_mk_nil]
  | cons c cs ih =>
    intro acc curr h
    have hc : (c == '"') = false := by
      cases hbeq : c == '"'
      · rfl
      · rw [beq_iff_eq] at hbeq
        subst hbeq
        exact absurd (List.mem_cons_self _ _) h
    have h' : '"' ∉ cs := fun hm => h (List.mem_cons_of_mem _ hm)
    simp only [read_str_go, hc, Bool.false_eq_true, if_false, ih (acc.push c) c h',
      push_append_mk, List.isEmpty_cons, Prod.mk.injEq, LState.mk.injEq, true_and,
      and_true]
    cases cs with
    | nil => simp
    | cons hd tl =>
      obtain ⟨x, hx⟩ : ∃ x, (hd :: tl).getLast? = some x := by
        cases htl : (hd :: tl).getLast? with
        | none => exact absurd (List.getLast?_eq_none_iff.mp htl) (by simp)
        | some y => exact ⟨y, rfl⟩
      simp [hx]

theorem read_string_noquote (cs : List Char) (h : '"' ∉ cs) :
    LState.read_string ⟨'"', cs⟩ =
      .error (.IllegalLexeme (String.mk ('"' :: cs))) := by
  unfold LState.read_string
  rw [read_str_go_noquote cs "" '"' h]
  cases cs with
  | nil => rfl
  | cons c cs' =>
    have hmem : (c :: cs').getLastD '"' ∈ c :: cs' :=
      getLastD_mem (c :: cs') (by simp) '"'
    have hne : ((c :: cs').getLastD '"' != '"') = true := by
      rw [bne_iff_ne]
      intro he
      rw [he] at hmem
      exact h hmem
    simp only [hne, Bool.true_or, if_true]
    rfl

/-- Claim C6: tokenizing a source that opens a string and reaches end of
input without a closing quote raises `IllegalLexeme` carrying the partial
content collected so far, prefixed with the opening quote (the `s = []`
instance also covers the at-least-one-advance requirement: a lone `"` is
malformed). -/
theorem claim6_unterminated_string (cs : List Char) (h : '"' ∉ cs) :
    tokenize (String.mk ('"' :: cs)) =
      .error (.IllegalLexeme (String.mk ('"' :: cs))) := by
  show build_tokens ((String.mk ('"' :: cs)).length + 1) ⟨'\x00', '"' :: cs⟩ = _
  rw [show (String.mk ('"' :: cs)).length + 1 = cs.length + 1 + 1 by
    simp [String.length]]
  rw [show (build_tokens (cs.length + 1 + 1) ⟨'\x00', '"' :: cs⟩) =
      (match (LState.next_token ⟨'\x00', '"' :: cs⟩) with
       | .error e => .error e
       | .ok none => .ok []
       | .ok (some (t, st')) =>
         (build_tokens (cs.length + 1) st').map (fun l => t :: l)) from rfl]
  rw [show LState.next_token ⟨'\x00', '"' :: cs⟩ =
      (LState.read_string ⟨'"', cs⟩).map (fun p => some (⟨.STRING, some p.1⟩, p.2)) by
    simp only [LState.next_token]
    rw [skip_ws_go_not '"' (by decide) cs]
    rfl]
  rw [read_string_noquote cs h]
  rfl

/-- Claim C6 witness: the spec's own example, the source `"abc` without a
closing quote, raises `IllegalLexeme` with payload `"abc`. -/
theorem claim6_witness :
    '"' ∉ ['a', 'b', 'c'] ∧
    tokenize (String.mk ['"', 'a', 'b', 'c']) =
      .error (.IllegalLexeme (String.mk ['"', 'a', 'b', 'c'])) :=
  ⟨by decide, claim6_unterminated_string ['a', 'b', 'c'] (by decide)⟩

theorem mk_append_mk (l1 l2 : List Char) :
    String.mk l1 ++ String.mk l2 = String.mk (l1 ++ l2) := rfl

theorem read_num_go_all (cs : List Char) : ∀ (acc : String) (curr : Char),
    (∀ c ∈ cs, c.isDigit = true ∨ c = '.') →
    read_num_go acc curr cs = (acc ++ String.mk cs, ⟨cs.getLastD curr, []⟩) := by
  induction cs with
  | nil =>
    intro acc curr _
    simp [read_num_go, List.getLastD, append_mk_nil]
  | cons c cs ih =>
    intro acc curr h
    have hc : (c.isDigit || c == '.') = true := by
      rcases h c (List.mem_cons_self _ _) with hd | rfl
      · rw [hd]; rfl
      · simp
    have h' : ∀ x ∈ cs, x.isDigit = true ∨ x = '.' :=
      fun x hm => h x (List.mem_cons_of_mem _ hm)
    simp only [read_num_go, hc, if_true, ih (acc.push c) c h', push_append_mk,
      Prod.mk.injEq, LState.mk.injEq, true_and, and_true]
    cases cs with
    | nil => simp
    | cons hd tl =>
      obtain ⟨x, hx⟩ : ∃ x, (hd :: tl).getLast? = some x := by
        cases htl : (hd :: tl).getLast? with
        | none => exact absurd (List.getLast?_eq_none_iff.mp htl) (by simp)
        | some y => exact ⟨y, rfl⟩
      simp [hx]

theorem next_token_digitdot (c : Char) (cs : List Char)
    (h : c.isDigit = true ∨ c = '.') :
    LState.next_token ⟨'\x00', c :: cs⟩ =
      (LState.read_number ⟨c, cs⟩).map (fun p => some (⟨.NUMBER, some p.1⟩, p.2)) := by
  rcases h with hd | rfl
  · have hws : c.isWhitespace = false := digit_not_ws c hd
    have e1 : (c == '(') = false := beq_eq_false_of_digit c '(' hd (by decide)
    have e2 : (c == ')') = false := beq_eq_false_of_digit c ')' hd (by decide)
    have e3 : (c == '{') = false := beq_eq_false_of_digit c '{' hd (by decide)
    have e4 : (c == '}') = false := beq_eq_false_of_digit c '}' hd (by decide)
    have e5 : (c == '+') = false := beq_eq_false_of_digit c '+' hd (by decide)
    have e6 : (c == '-') = false := beq_eq_false_of_digit c '-' hd (by decide)
    have e7 : (c == '*') = false := beq_eq_false_of_digit c '*' hd (by decide)
    have e8 : (c == '/') = false := beq_eq_false_of_digit c '/' hd (by decide)
    have e9 : (c == '%') = false := beq_eq_false_of_digit c '%' hd (by decide)
    have e10 : (c == ',') = false := beq_eq_false_of_digit c ',' hd (by decide)
    have e11 : (c == ';') = false := beq_eq_false_of_digit c ';' hd (by decide)
    have e12 : (c == '"') = false := beq_eq_false_of_digit c '"' hd (by decide)
    have e13 : (c == '=') = false := beq_eq_false_of_digit c '=' hd (by decide)
    have e14 : (c == '!') = false := beq_eq_false_of_digit c '!' hd (by decide)
    have e15 : (c == '<') = false := beq_eq_false_of_digit c '<' hd (by decide)
    have e16 : (c == '>') = false := beq_eq_false_of_digit c '>' hd (by decide)
    have e17 : (c == '&') = false := beq_eq_false_of_digit c '&' hd (by decide)
    have e18 : (c == '|') = false := beq_eq_false_of_digit c '|' hd (by decide)
    have ea : c.isAlpha = false := digit_not_alpha c hd
    have hnum : (c.isDigit || c == '.') = true := by rw [hd]; rfl
    simp only [LState.next_token]
    rw [skip_ws_go_not c hws cs]
    unfold next_token_dispatch
    simp only [e1, e2, e3, e4, e5, e6, e7, e8, e9, e10, e11, e12, e13, e14, e15,
      e16, e17, e18, ea, hnum, Bool.false_and, Bool.false_eq_true, if_false,
      if_true]
  · simp only [LState.next_token]
    rw [skip_ws_go_not '.' (by decide) cs]
    rfl

/-- Claim C4, counterexample: the lexical form `1.` does not match the
spec's pattern (it has no digit after the dot), yet tokenizing `"1."` does
not raise `IllegalLexeme` — Python's `float("1.")` succeeds, so the lexer
returns a number token. -/
theorem claim4_counterexample :
    specNumForm "1." = false ∧
    tokenize "1." = .ok [⟨.NUMBER, some "1."⟩] := ⟨by decide, by decide⟩

/-- Claim C4, amended: for a source consisting of one numeric lexeme (a
nonempty string of digits and dots), tokenize yields exactly one number
token carrying that lexeme — whose parsed value is the `float` value of the
lexeme — exactly when Python's `float` accepts it (at least one digit, at
most one dot; this includes forms like `"1."` that the spec's pattern
rejects), and raises `IllegalLexeme` carrying the accumulated text exactly
when `float` rejects it (e.g. `"1.2.3"`). -/
theorem claim4_amended (cs : List Char) (hne : cs ≠ [])
    (hall : ∀ c ∈ cs, c.isDigit = true ∨ c = '.') :
    (pyFloatValid (String.mk cs) = true →
       tokenize (String.mk cs) = .ok [⟨.NUMBER, some (String.mk cs)⟩] ∧
       ∃ q, pyFloat (String.mk cs) = some q ∧
         Leaf_init ⟨.NUMBER, some (String.mk cs)⟩ = .ok (.Leaf .NUMBER (.num q))) ∧
    (pyFloatValid (String.mk cs) = false →
       tokenize (String.mk cs) = .error (.IllegalLexeme (String.mk cs))) := by
  cases cs with
  | nil => exact absurd rfl hne
  | cons c cs' =>
    have hread : LState.read_number ⟨c, cs'⟩ =
        if pyFloatValid (String.mk (c :: cs')) then
          .ok (String.mk (c :: cs'), ⟨cs'.getLastD c, []⟩)
        else .error (.IllegalLexeme (String.mk (c :: cs'))) := by
      unfold LState.read_number
      rw [show String.singleton c = String.mk [c] from rfl,
        read_num_go_all cs' (String.mk [c]) c
          (fun x hm => hall x (List.mem_cons_of_mem _ hm)),
        mk_append_mk [c] cs']
      rfl
    have htok : tokenize (String.mk (c :: cs')) =
        if pyFloatValid (String.mk (c :: cs')) then
          .ok [⟨.NUMBER, some (String.mk (c :: cs'))⟩]
        else .error (.IllegalLexeme (String.mk (c :: cs'))) := by
      show build_tokens ((String.mk (c :: cs')).length + 1) ⟨'\x00', c :: cs'⟩ = _
      rw [show (String.mk (c :: cs')).length + 1 = cs'.length + 1 + 1 by
        simp [String.length]]
      rw [show (build_tokens (cs'.length + 1 + 1) ⟨'\x00', c :: cs'⟩) =
          (match (LState.next_token ⟨'\x00', c :: cs'⟩) with
           | .error e => .error e
           | .ok none => .ok []
           | .ok (some (t, st')) =>
             (build_tokens (cs'.length + 1) st').map (fun l => t :: l)) from rfl]
      rw [next_token_digitdot c cs' (hall c (List.mem_cons_self _ _)), hread]
      cases hv : pyFloatValid (String.mk (c :: cs')) <;> simp <;> rfl
    constructor
    · intro hv
      refine ⟨by rw [htok, hv]; rfl, ?_⟩
      obtain ⟨q, hq⟩ : ∃ q, pyFloat (String.mk (c :: cs')) = some q := by
        unfold pyFloat
        rw [hv]
        simp only [if_true]
        split
        · exact ⟨_, rfl⟩
        · exact ⟨_, rfl⟩
      exact ⟨q, hq, by simp [Leaf_init, hq]⟩
    · intro hv
      rw [htok, hv]
      rfl

/-- Claim C4 witness: the spec's own malformed example `1.2.3` (two dots):
`float` rejects it and tokenize raises `IllegalLexeme` carrying `1.2.3`. -/
theorem claim4_witness :
    (['1', '.', '2', '.', '3'] : List Char) ≠ [] ∧
    pyFloatValid (String.mk ['1', '.', '2', '.', '3']) = false ∧
    tokenize (String.mk ['1', '.', '2', '.', '3']) =
      .error (.IllegalLexeme (String.mk ['1', '.', '2', '.', '3'])) :=
  ⟨by decide, by decide,
    (claim4_amended ['1', '.', '2', '.', '3'] (by decide)
      (by decide)).2 (by decide)⟩

theorem ladvance_len (st : LState) : (st.advance).2.rest.length ≤ st.rest.length := by
  obtain ⟨c, rest⟩ := st
  cases rest <;> simp [LState.advance]

theorem skip_ws_go_len (rest : List Char) : ∀ (c : Char) (st' : LState),
    skip_ws_go c rest = some st' → st'.rest.length ≤ rest.length := by
  induction rest with
  | nil =>
    intro c st' h
    unfold skip_ws_go at h
    split at h
    · cases h
    · injection h with h
      subst h
      simp
  | cons c2 r ih =>
    intro c st' h
    unfold skip_ws_go at h
    split at h
    · exact le_trans (ih c2 st' h) (by simp)
    · injection h with h
      subst h
      simp

theorem read_ident_go_len (cs : List Char) : ∀ (acc : String) (curr : Char),
    (read_ident_go acc curr cs).2.rest.length ≤ cs.length := by
  induction cs with
  | nil => intro acc curr; simp [read_ident_go]
  | cons p r ih =>
    intro acc curr
    unfold read_ident_go
    split
    · exact le_trans (ih _ _) (by simp)
    · simp

theorem read_num_go_len (cs : List Char) : ∀ (acc : String) (curr : Char),
    (read_num_go acc curr cs).2.rest.length ≤ cs.length := by
  induction cs with
  | nil => intro acc curr; simp [read_num_go]
  | cons p r ih =>
    intro acc curr
    unfold read_num_go
    split
    · exact le_trans (ih _ _) (by simp)
    · simp

theorem read_str_go_len (cs : List Char) : ∀ (acc : String) (curr : Char),
    (read_str_go acc curr cs).2.2.rest.length ≤ cs.length := by
  induction cs with
  | nil => intro acc curr; simp [read_str_go]
  | cons p r ih =>
    intro acc curr
    unfold read_str_go
    split
    · simp
    · exact le_trans (ih _ _) (by simp)

theorem read_string_spec (st : LState) :
    (∃ s, st.read_string = .error (.IllegalLexeme s)) ∨
    ∃ v st', st.read_string = .ok (v, st') ∧ st'.rest.length ≤ st.rest.length := by
  unfold LState.read_string
  generalize hgo : read_str_go "" st.curr st.rest = p
  obtain ⟨s, m, st'⟩ := p
  have hlen : st'.rest.length ≤ st.rest.length := by
    have h := read_str_go_len st.rest "" st.curr
    rw [hgo] at h
    exact h
  by_cases hc : (st'.curr != '"' || m) = true
  · exact Or.inl ⟨_, if_pos hc⟩
  · exact Or.inr ⟨s, st', if_neg hc, hlen⟩

theorem read_number_spec (st : LState) :
    (∃ s, st.read_number = .error (.IllegalLexeme s)) ∨
    ∃ v st', st.read_number = .ok (v, st') ∧ pyFloatValid v = true ∧
      st'.rest.length ≤ st.rest.length := by
  unfold LState.read_number
  generalize hgo : read_num_go (String.singleton st.curr) st.curr st.rest = p
  obtain ⟨v, st'⟩ := p
  have hlen : st'.rest.length ≤ st.rest.length := by
    have h := read_num_go_len st.rest (String.singleton st.curr) st.curr
    rw [hgo] at h
    exact h
  by_cases hv : pyFloatValid v = true
  · exact Or.inr ⟨v, st', if_pos hv, hv, hlen⟩
  · exact Or.inl ⟨v, if_neg hv⟩

theorem read_identifier_len (st : LState) :
    (st.read_identifier).2.rest.length ≤ st.rest.length :=
  read_ident_go_len st.rest (String.singleton st.curr) st.curr

theorem classify_ident_wf (s : String) : (classify_ident s).wf = true := by
  unfold classify_ident
  split_ifs <;> rfl

set_option maxHeartbeats 1600000 in
theorem next_token_dispatch_spec (st1 : LState) (bound : Nat)
    (hlen1 : st1.rest.length ≤ bound) :
    (∃ s, next_token_dispatch st1 = .error (.IllegalLexeme s)) ∨
    ∃ t st', next_token_dispatch st1 = .ok (some (t, st')) ∧ t.wf = true ∧
      st'.rest.length ≤ bound := by
  have hok : ∀ (t : Token) (st' : LState), t.wf = true →
      st'.rest.length ≤ bound →
      ∀ (x : Except Error (Option (Token × LState))), x = .ok (some (t, st')) →
      (∃ s, x = .error (.IllegalLexeme s)) ∨
      ∃ t2 st2, x = .ok (some (t2, st2)) ∧ t2.wf = true ∧
        st2.rest.length ≤ bound := by
    intro t st' hwf hle x hx
    exact Or.inr ⟨t, st', hx, hwf, hle⟩
  unfold next_token_dispatch
  by_cases h1 : (st1.curr == '(') = true
  · rw [if_pos h1]
    exact hok ⟨.LEFT_PARENTHESIS, none⟩ st1 rfl hlen1 _ rfl
  rw [if_neg h1]
  by_cases h2 : (st1.curr == ')') = true
  · rw [if_pos h2]
    exact hok ⟨.RIGHT_PARENTHESIS, none⟩ st1 rfl hlen1 _ rfl
  rw [if_neg h2]
  by_cases h3 : (st1.curr == '{') = true
  · rw [if_pos h3]
    exact hok ⟨.LEFT_CURLY, none⟩ st1 rfl hlen1 _ rfl
  rw [if_neg h3]
  by_cases h4 : (st1.curr == '}') = true
  · rw [if_pos h4]
    exact hok ⟨.RIGHT_CURLY, none⟩ st1 rfl hlen1 _ rfl
  rw [if_neg h4]
  by_cases h5 : (st1.curr == '+') = true
  · rw [if_pos h5]
    exact hok ⟨.PLUS, none⟩ st1 rfl hlen1 _ rfl
  rw [if_neg h5]
  by_cases h6 : (st1.curr == '-') = true
  · rw [if_pos h6]
    exact hok ⟨.DASH, none⟩ st1 rfl hlen1 _ rfl
  rw [if_neg h6]
  by_cases h7 : (st1.curr == '*') = true
  · rw [if_pos h7]
    exact hok ⟨.ASTERISK, none⟩ st1 rfl hlen1 _ rfl
  rw [if_neg h7]
  by_cases h8 : (st1.curr == '/') = true
  · rw [if_pos h8]
    exact hok ⟨.SLASH, none⟩ st1 rfl hlen1 _ rfl
  rw [if_neg h8]
  by_cases h9 : (st1.curr == '%') = true
  · rw [if_pos h9]
    exact hok ⟨.MODULUS, none⟩ st1 rfl hlen1 _ rfl
  rw [if_neg h9]
  by_cases h10 : (st1.curr == ',') = true
  · rw [if_pos h10]
    exact hok ⟨.COMMA, none⟩ st1 rfl hlen1 _ rfl
  rw [if_neg h10]
  by_cases h11 : (st1.curr == ';') = true
  · rw [if_pos h11]
    exact hok ⟨.SEMICOLON, none⟩ st1 rfl hlen1 _ rfl
  rw [if_neg h11]
  by_cases h12 : (st1.curr == '"') = true
  · rw [if_pos h12]
    rcases read_string_spec st1 with ⟨s, hs⟩ | ⟨v, st2, hs, hl⟩
    · rw [hs]
      exact Or.inl ⟨s, rfl⟩
    · rw [hs]
      exact hok ⟨.STRING, some v⟩ st2 rfl (le_trans hl hlen1) _ rfl
  rw [if_neg h12]
  by_cases h13 : (st1.curr == '=' && st1.peek == some '=') = true
  · rw [if_pos h13]
    exact hok ⟨.EQUAL, none⟩ (st1.advance).2 rfl (le_trans (ladvance_len st1) hlen1) _ rfl
  rw [if_neg h13]
  by_cases h14 : (st1.curr == '=') = true
  · rw [if_pos h14]
    exact hok ⟨.ASSIGN, none⟩ st1 rfl hlen1 _ rfl
  rw [if_neg h14]
  by_cases h15 : (st1.curr == '!' && st1.peek == some '=') = true
  · rw [if_pos h15]
    exact hok ⟨.BANG_EQUAL, none⟩ (st1.advance).2 rfl (le_trans (ladvance_len st1) hlen1) _ rfl
  rw [if_neg h15]
  by_cases h16 : (st1.curr == '!') = true
  · rw [if_pos h16]
    exact hok ⟨.BANG, none⟩ st1 rfl hlen1 _ rfl
  rw [if_neg h16]
  by_cases h17 : (st1.curr == '<' && st1.peek == some '=') = true
  · rw [if_pos h17]
    exact hok ⟨.LESS_EQUAL, none⟩ (st1.advance).2 rfl (le_trans (ladvance_len st1) hlen1) _ rfl
  rw [if_neg h17]
  by_cases h18 : (st1.curr == '<') = true
  · rw [if_pos h18]
    exact hok ⟨.LESS, none⟩ st1 rfl hlen1 _ rfl
  rw [if_neg h18]
  by_cases h19 : (st1.curr == '>' && st1.peek == some '=') = true
  · rw [if_pos h19]
    exact hok ⟨.GREATER_EQUAL, none⟩ (st1.advance).2 rfl (le_trans (ladvance_len st1) hlen1) _ rfl
  rw [if_neg h19]
  by_cases h20 : (st1.curr == '>') = true
  · rw [if_pos h20]
    exact hok ⟨.GREATER, none⟩ st1 rfl hlen1 _ rfl
  rw [if_neg h20]
  by_cases h21 : (st1.curr == '&' && st1.peek == some '&') = true
  · rw [if_pos h21]
    exact hok ⟨.AND, none⟩ (st1.advance).2 rfl (le_trans (ladvance_len st1) hlen1) _ rfl
  rw [if_neg h21]
  by_cases h22 : (st1.curr == '|' && st1.peek == some '|') = true
  · rw [if_pos h22]
    exact hok ⟨.OR, none⟩ (st1.advance).2 rfl (le_trans (ladvance_len st1) hlen1) _ rfl
  rw [if_neg h22]
  by_cases h23 : st1.curr.isAlpha = true
  · rw [if_pos h23]
    exact hok (classify_ident st1.read_identifier.1) st1.read_identifier.2 (classify_ident_wf _) (le_trans (read_identifier_len st1) hlen1) _ rfl
  rw [if_neg h23]
  by_cases h24 : (st1.curr.isDigit || st1.curr == '.') = true
  · rw [if_pos h24]
    rcases read_number_spec st1 with ⟨s, hs⟩ | ⟨v, st2, hs, hv, hl⟩
    · rw [hs]
      exact Or.inl ⟨s, rfl⟩
    · rw [hs]
      refine hok ⟨.NUMBER, some v⟩ st2 ?_ (le_trans hl hlen1) _ rfl
      exact hv
  rw [if_neg h24]
  exact Or.inl ⟨_, rfl⟩

theorem next_token_spec (st : LState) :
    (∃ s, st.next_token = .error (.IllegalLexeme s)) ∨
    st.next_token = .ok none ∨
    ∃ t st', st.next_token = .ok (some (t, st')) ∧ t.wf = true ∧
      st'.rest.length < st.rest.length := by
  obtain ⟨curr, rest⟩ := st
  cases rest with
  | nil => exact Or.inr (Or.inl rfl)
  | cons c r =>
    have hred : LState.next_token ⟨curr, c :: r⟩ =
        match skip_ws_go c r with
        | none => .ok none
        | some st1 => next_token_dispatch st1 := rfl
    rw [hred]
    cases hsw : skip_ws_go c r with
    | none => exact Or.inr (Or.inl rfl)
    | some st1 =>
      have hlen1 : st1.rest.length ≤ r.length := skip_ws_go_len r c st1 hsw
      rcases next_token_dispatch_spec st1 r.length hlen1 with ⟨s, hs⟩ | ⟨t, st2, hs, hwf, hl⟩
      · exact Or.inl ⟨s, hs⟩
      · refine Or.inr (Or.inr ⟨t, st2, hs, hwf, ?_⟩)
        simp only [List.length_cons]
        omega

theorem build_tokens_spec : ∀ (fuel : Nat) (st : LState), st.rest.length < fuel →
    (∃ s, build_tokens fuel st = .error (.IllegalLexeme s)) ∨
    ∃ l, build_tokens fuel st = .ok l ∧ TokensWF l := by
  intro fuel
  induction fuel with
  | zero => intro st h; omega
  | succ n ih =>
    intro st h
    rcases next_token_spec st with ⟨s, hs⟩ | hs | ⟨t, st', hs, hwf, hlt⟩
    · left
      refine ⟨s, ?_⟩
      unfold build_tokens
      rw [hs]
    · right
      refine ⟨[], ?_, fun t ht => absurd ht (List.not_mem_nil t)⟩
      unfold build_tokens
      rw [hs]
    · rcases ih st' (by omega) with ⟨s, hs'⟩ | ⟨l, hl, hwfl⟩
      · left
        refine ⟨s, ?_⟩
        unfold build_tokens
        rw [hs]
        show Except.map (fun l => t :: l) (build_tokens n st') = _
        rw [hs']
        rfl
      · right
        refine ⟨t :: l, ?_, ?_⟩
        · unfold build_tokens
          rw [hs]
          show Except.map (fun l => t :: l) (build_tokens n st') = _
          rw [hl]
          rfl
        · intro x hx
          rcases List.mem_cons.mp hx with rfl | hx'
          · exact hwf
          · exact hwfl x hx'

theorem tokenize_spec (source : String) :
    (∃ s, tokenize source = .error (.IllegalLexeme s)) ∨
    ∃ l, tokenize source = .ok l ∧ TokensWF l :=
  build_tokens_spec (source.length + 1) ⟨'\x00', source.toList⟩
    (by show source.toList.length < source.length + 1
        rw [show source.toList.length = source.length from rfl]
        omega)

theorem pyFloat_some (s : String) (hv : pyFloatValid s = true) :
    ∃ q, pyFloat s = some q := by
  unfold pyFloat
  rw [hv]
  simp only [if_true]
  split
  · exact ⟨_, rfl⟩
  · exact ⟨_, rfl⟩

theorem Leaf_init_spec (t : Token) (hwf : t.wf = true) :
    (∃ e a, Leaf_init t = .error (.UnexpectedToken e a)) ∨
    ∃ v, Leaf_init t = .ok v := by
  obtain ⟨ty, lit⟩ := t
  cases ty <;>
    first
      | exact Or.inl ⟨_, _, rfl⟩
      | exact Or.inr ⟨_, rfl⟩
      | (cases lit with
          | none => exact absurd hwf (by simp [Token.wf])
          | some s =>
            have hv : pyFloatValid s = true := hwf
            obtain ⟨q, hq⟩ := pyFloat_some s hv
            refine Or.inr ⟨.Leaf .NUMBER (.num q), ?_⟩
            show Leaf_init ⟨.NUMBER, some s⟩ = _
            simp only [Leaf_init]
            rw [hq])

theorem valueAttr_spec (e : Expression) :
    (∃ k, e.valueAttr = .error (.AttributeError k)) ∨
    ∃ v, e.valueAttr = .ok v := by
  cases e <;> first
    | exact Or.inl ⟨_, rfl⟩
    | exact Or.inr ⟨_, rfl⟩

theorem nud_unary (ty : TokenType) (h : nudRules ty = some .unaryRule) :
    ty = .BANG ∨ ty = .DASH := by
  cases ty <;> simp_all [nudRules]

theorem led_binary (ty : TokenType) (h : ledRules ty = some .binaryRule) :
    ∃ op, binary_operation ty = .ok op := by
  cases ty <;> first
    | exact ⟨_, rfl⟩
    | simp [ledRules] at h

theorem consume_spec (st : PState) (h : Good st) :
    st.consume = .error (.UnexpectedToken .tokenClass none) ∨
    ∃ t st', st.consume = .ok (t, st') ∧ Good st' ∧ t.wf = true ∧
      st'.rest.length + 1 = st.rest.length ∧ st'.curr = t := by
  obtain ⟨hc, hr⟩ := h
  obtain ⟨curr, rest⟩ := st
  cases rest with
  | nil => exact Or.inl rfl
  | cons t r =>
    refine Or.inr ⟨t, ⟨t, r⟩, rfl,
      ⟨hr t (List.mem_cons_self _ _), fun x hx => hr x (List.mem_cons_of_mem _ hx)⟩,
      hr t (List.mem_cons_self _ _), by simp, rfl⟩

theorem expect_spec (st : PState) (ty : TokenType) (h : Good st) :
    (∃ e a, st.expect ty = .error (.UnexpectedToken e a)) ∨
    ∃ t st', st.expect ty = .ok (t, st') ∧ Good st' ∧ t.wf = true ∧
      st'.rest.length + 1 = st.rest.length ∧ st'.curr = t ∧ t.type = ty := by
  obtain ⟨hc, hr⟩ := h
  obtain ⟨curr, rest⟩ := st
  cases rest with
  | nil => exact Or.inl ⟨_, _, rfl⟩
  | cons t r =>
    by_cases hty : (t.type == ty) = true
    · exact Or.inr ⟨t, ⟨t, r⟩, if_pos hty,
        ⟨hr t (List.mem_cons_self _ _), fun x hx => hr x (List.mem_cons_of_mem _ hx)⟩,
        hr t (List.mem_cons_self _ _), by simp, rfl, beq_iff_eq.mp hty⟩
    · exact Or.inl ⟨_, _, if_neg hty⟩

theorem matchTok_spec (st : PState) (ty : TokenType) (h : Good st) :
    st.matchTok ty = none ∨
    ∃ t st', st.matchTok ty = some (t, st') ∧ Good st' ∧ t.wf = true ∧
      st'.rest.length + 1 = st.rest.length ∧ st'.curr = t ∧ t.type = ty := by
  obtain ⟨hc, hr⟩ := h
  obtain ⟨curr, rest⟩ := st
  cases rest with
  | nil => exact Or.inl rfl
  | cons t r =>
    by_cases hty : (t.type == ty) = true
    · exact Or.inr ⟨t, ⟨t, r⟩, if_pos hty,
        ⟨hr t (List.mem_cons_self _ _), fun x hx => hr x (List.mem_cons_of_mem _ hx)⟩,
        hr t (List.mem_cons_self _ _), by simp, rfl, beq_iff_eq.mp hty⟩
    · exact Or.inl (if_neg hty)

theorem expect_current_spec (st : PState) (ty : TokenType) :
    (∃ e a, st.expect_current ty = .error (.UnexpectedToken e a)) ∨
    ∃ t, st.expect_current ty = .ok t := by
  unfold PState.expect_current
  by_cases hty : (st.curr.type == ty) = true
  · exact Or.inr ⟨_, if_pos hty⟩
  · exact Or.inl ⟨_, _, if_neg hty⟩

theorem padvance_spec (st : PState) (h : Good st) :
    (st.advance = (false, st) ∧ st.rest = []) ∨
    ∃ st', st.advance = (true, st') ∧ Good st' ∧
      st'.rest.length + 1 = st.rest.length := by
  obtain ⟨hc, hr⟩ := h
  obtain ⟨curr, rest⟩ := st
  cases rest with
  | nil => exact Or.inl ⟨rfl, rfl⟩
  | cons t r =>
    refine Or.inr ⟨⟨t, r⟩, rfl,
      ⟨hr t (List.mem_cons_self _ _), fun x hx => hr x (List.mem_cons_of_mem _ hx)⟩,
      by simp⟩

theorem fn_def_params_spec (n : Nat) : ∀ (rest : List Token), rest.length ≤ n →
    ∀ (args : List String) (curr : Token), TokensWF rest → curr.wf = true →
    (∃ e a, fn_def_params_go args curr rest = .error (.UnexpectedToken e a)) ∨
    ∃ l st', fn_def_params_go args curr rest = .ok (l, st') ∧ Good st' ∧
      st'.rest.length ≤ rest.length := by
  induction n with
  | zero =>
    intro rest hlen args curr hwf hcwf
    have : rest = [] := List.length_eq_zero.mp (Nat.le_zero.mp hlen)
    subst this
    unfold fn_def_params_go
    split_ifs
    · exact Or.inr ⟨args, ⟨curr, []⟩, rfl, ⟨hcwf, hwf⟩, by simp⟩
    · exact Or.inl ⟨_, _, rfl⟩
    · exact Or.inl ⟨_, _, rfl⟩
  | succ n ih =>
    intro rest hlen args curr hwf hcwf
    cases rest with
    | nil =>
      unfold fn_def_params_go
      split_ifs
      · exact Or.inr ⟨args, ⟨curr, []⟩, rfl, ⟨hcwf, hwf⟩, by simp⟩
      · exact Or.inl ⟨_, _, rfl⟩
      · exact Or.inl ⟨_, _, rfl⟩
    | cons t r =>
      have hwt : t.wf = true := hwf t (List.mem_cons_self _ _)
      have hwr : TokensWF r := fun x hx => hwf x (List.mem_cons_of_mem _ hx)
      unfold fn_def_params_go
      split_ifs
      · exact Or.inr ⟨args, ⟨curr, t :: r⟩, rfl, ⟨hcwf, hwf⟩, le_refl _⟩
      case _ hrp hid hcomma =>
        cases r with
        | nil => exact Or.inl ⟨_, _, rfl⟩
        | cons t2 r2 =>
          have hwt2 : t2.wf = true := hwr t2 (List.mem_cons_self _ _)
          have hwr2 : TokensWF r2 := fun x hx => hwr x (List.mem_cons_of_mem _ hx)
          rcases ih r2 (by simp at hlen; omega) (args ++ [curr.literal.getD ""]) t2
              hwr2 hwt2 with ⟨e, a, hgo⟩ | ⟨l, st', hgo, hst', hlen'⟩
          · left
            exact ⟨e, a, hgo⟩
          · right
            refine ⟨l, st', hgo, hst', le_trans hlen' ?_⟩
            simp
            omega
      case _ hrp hid hcomma hrp2 =>
        exact Or.inr ⟨args ++ [curr.literal.getD ""], ⟨t, r⟩, rfl, ⟨hwt, hwr⟩, by simp⟩
      case _ => exact Or.inl ⟨_, _, rfl⟩
      case _ => exact Or.inl ⟨_, _, rfl⟩

theorem except_bind_ok {α β : Type} (a : α) (f : α → Except Error β) :
    (Except.ok a >>= f) = f a := rfl

theorem except_bind_error {α β : Type} (e : Error) (f : α → Except Error β) :
    ((Except.error e : Except Error α) >>= f) = .error e := rfl

theorem resultGood_error {α : Type} (st : PState) (e : Error)
    (h : e.escapable = true) :
    resultGood st (.error e : Except Error (α × PState)) := h

theorem resultGood_ok {α : Type} (st : PState) (a : α) (st' : PState)
    (h1 : Good st') (h2 : st'.rest.length ≤ st.rest.length) :
    resultGood st (.ok (a, st') : Except Error (α × PState)) := ⟨h1, h2⟩

theorem parse_unary_good (n : Nat) (rec : RecT) (hrec : RecGood n rec)
    (st : PState) (hst : Good st) (hty : nudRules st.curr.type = some .unaryRule)
    (hfuel : 8 * st.rest.length + 1 ≤ n) :
    resultGood st (parse_unary rec st) := by
  obtain ⟨op, hop⟩ : ∃ op, unary_operation st.curr.type = .ok op := by
    rcases nud_unary _ hty with h | h <;> rw [h] <;> exact ⟨_, rfl⟩
  unfold parse_unary
  rcases consume_spec st hst with hc | ⟨t, st1, hc, hst1, hwt, hlen1, hcurr⟩
  · simp only [hop, hc, except_bind_ok, except_bind_error]
    exact resultGood_error st _ rfl
  · simp only [hop, hc, except_bind_ok]
    have hr := hrec (.expression .PRE) st1 hst1 (by simp [modeRank]; omega)
    rcases hrun : rec (.expression .PRE) st1 with e | ⟨value, st2⟩
    · rw [hrun] at hr
      simp only [hrun, except_bind_error]
      exact resultGood_error st _ hr
    · rw [hrun] at hr
      obtain ⟨hst2, hlen2⟩ := hr
      have hst2' : Good st2 := hst2
      have hlen2' : st2.rest.length ≤ st1.rest.length := hlen2
      simp only [hrun, except_bind_ok]
      exact resultGood_ok st _ st2 hst2' (by omega)

theorem resultGood_weaken {α : Type} (st st1 : PState)
    (x : Except Error (α × PState)) (h : resultGood st1 x)
    (hle : st1.rest.length ≤ st.rest.length) : resultGood st x := by
  cases x with
  | error e => exact h
  | ok p => exact ⟨h.1, le_trans h.2 hle⟩

theorem parse_identifier_good (st : PState) (hst : Good st) :
    resultGood st (parse_identifier st) := resultGood_ok st _ st hst (le_refl _)

theorem parse_leaf_good (st : PState) (hst : Good st) :
    resultGood st (parse_leaf st) := by
  unfold parse_leaf
  rcases Leaf_init_spec st.curr hst.1 with ⟨e, a, hl⟩ | ⟨v, hl⟩
  · rw [hl]
    exact resultGood_error st _ rfl
  · rw [hl]
    exact resultGood_ok st _ st hst (le_refl _)

theorem parse_grouped_good (n : Nat) (rec : RecT) (hrec : RecGood n rec)
    (st : PState) (hst : Good st) (hfuel : 8 * st.rest.length + 1 ≤ n) :
    resultGood st (parse_grouped rec st) := by
  unfold parse_grouped
  rcases consume_spec st hst with hc | ⟨t, st1, hc, hst1, hwt, hlen1, hcurr⟩
  · simp only [hc, except_bind_error]
    exact resultGood_error st _ rfl
  · simp only [hc, except_bind_ok]
    have hr := hrec (.expression .LOWEST) st1 hst1 (by simp [modeRank]; omega)
    rcases hrun : rec (.expression .LOWEST) st1 with e | ⟨expression, st2⟩
    · rw [hrun] at hr
      simp only [hrun, except_bind_error]
      exact resultGood_error st _ hr
    · rw [hrun] at hr
      have hst2 : Good st2 := hr.1
      have hlen2 : st2.rest.length ≤ st1.rest.length := hr.2
      simp only [hrun, except_bind_ok]
      rcases expect_spec st2 .RIGHT_PARENTHESIS hst2 with
        ⟨e, a, he⟩ | ⟨t3, st3, he, hst3, hwt3, hlen3, hcurr3, hty3⟩
      · simp only [he, except_bind_error]
        exact resultGood_error st _ rfl
      · simp only [he, except_bind_ok]
        exact resultGood_ok st _ st3 hst3 (by omega)

theorem parse_block_good (n : Nat) (rec : RecT) (hrec : RecGood n rec)
    (st : PState) (hst : Good st) (hfuel : 8 * st.rest.length < n) :
    resultGood st (parse_block rec st) :=
  hrec (.blockLoop []) st hst (by simp [modeRank]; omega)

theorem parse_binary_good (n : Nat) (rec : RecT) (hrec : RecGood n rec)
    (left : Expression) (st : PState) (hst : Good st)
    (hty : ledRules st.curr.type = some .binaryRule)
    (hfuel : 8 * st.rest.length ≤ n) :
    resultGood st (parse_binary rec left st) := by
  obtain ⟨op, hop⟩ := led_binary _ hty
  unfold parse_binary
  rcases consume_spec st hst with hc | ⟨t, st1, hc, hst1, hwt, hlen1, hcurr⟩
  · simp only [hop, hc, except_bind_ok, except_bind_error]
    exact resultGood_error st _ rfl
  · simp only [hop, hc, except_bind_ok]
    have hr := hrec (.expression st.get_current_precedence) st1 hst1
      (by simp [modeRank]; omega)
    rcases hrun : rec (.expression st.get_current_precedence) st1 with e | ⟨right, st2⟩
    · rw [hrun] at hr
      simp only [hrun, except_bind_error]
      exact resultGood_error st _ hr
    · rw [hrun] at hr
      have hst2 : Good st2 := hr.1
      have hlen2 : st2.rest.length ≤ st1.rest.length := hr.2
      simp only [hrun, except_bind_ok]
      exact resultGood_ok st _ st2 hst2 (by omega)

theorem fn_call_finish_good (left : Expression) (args : List Expression)
    (st : PState) (hst : Good st) :
    resultGood st (fn_call_finish left args st) := by
  unfold fn_call_finish
  rcases expect_current_spec st .RIGHT_PARENTHESIS with ⟨e, a, he⟩ | ⟨t, he⟩
  · simp only [he, except_bind_error]
    exact resultGood_error st _ rfl
  · simp only [he, except_bind_ok]
    rcases valueAttr_spec left with ⟨k, hv⟩ | ⟨v, hv⟩
    · simp only [hv, except_bind_error]
      exact resultGood_error st _ rfl
    · simp only [hv, except_bind_ok]
      exact resultGood_ok st _ st hst (le_refl _)

theorem parse_fn_call_good (n : Nat) (rec : RecT) (hrec : RecGood n rec)
    (left : Expression) (st : PState) (hst : Good st)
    (hfuel : 8 * st.rest.length ≤ n) :
    resultGood st (parse_fn_call rec left st) := by
  unfold parse_fn_call
  rcases consume_spec st hst with hc | ⟨t, st1, hc, hst1, hwt, hlen1, hcurr⟩
  · simp only [hc, except_bind_error]
    exact resultGood_error st _ rfl
  · simp only [hc, except_bind_ok]
    have hr := hrec (.fnCallLoop left []) st1 hst1 (by simp [modeRank]; omega)
    exact resultGood_weaken st st1 _ hr (by omega)

theorem parse_wrapper_good (n : Nat) (rec : RecT) (hrec : RecGood n rec)
    (st : PState) (hst : Good st) (hfuel : 8 * st.rest.length + 2 ≤ n) :
    resultGood st (parse_wrapper rec st) := by
  unfold parse_wrapper
  have hr := hrec (.expression .LOWEST) st hst (by simp [modeRank]; omega)
  rcases hrun : rec (.expression .LOWEST) st with e | ⟨value, st1⟩
  · rw [hrun] at hr
    simp only [hrun, except_bind_error]
    exact resultGood_error st _ hr
  · rw [hrun] at hr
    have hst1 : Good st1 := hr.1
    have hlen1 : st1.rest.length ≤ st.rest.length := hr.2
    simp only [hrun, except_bind_ok]
    rcases expect_spec st1 .SEMICOLON hst1 with
      ⟨e, a, he⟩ | ⟨t, st2, he, hst2, hwt2, hlen2, hcurr2, hty2⟩
    · simp only [he, except_bind_error]
      exact resultGood_error st _ rfl
    · simp only [he, except_bind_ok]
      exact resultGood_ok st _ st2 hst2 (by omega)

theorem parse_let_good (n : Nat) (rec : RecT) (hrec : RecGood n rec)
    (st : PState) (hst : Good st) (hfuel : 8 * st.rest.length + 2 ≤ n) :
    resultGood st (parse_let rec st) := by
  unfold parse_let
  rcases expect_spec st .IDENTIFIER hst with
    ⟨e, a, he⟩ | ⟨t1, st1, he, hst1, hwt1, hlen1, hcurr1, hty1⟩
  · simp only [he, except_bind_error]
    exact resultGood_error st _ rfl
  · simp only [he, except_bind_ok]
    rcases expect_spec st1 .ASSIGN hst1 with
      ⟨e, a, he2⟩ | ⟨t2, st2, he2, hst2, hwt2, hlen2, hcurr2, hty2⟩
    · simp only [he2, except_bind_error]
      exact resultGood_error st _ rfl
    · simp only [he2, except_bind_ok]
      rcases consume_spec st2 hst2 with hc | ⟨t3, st3, hc, hst3, hwt3, hlen3, hcurr3⟩
      · simp only [hc, except_bind_error]
        exact resultGood_error st _ rfl
      · simp only [hc, except_bind_ok]
        have hr := hrec (.expression .LOWEST) st3 hst3 (by simp [modeRank]; omega)
        rcases hrun : rec (.expression .LOWEST) st3 with e | ⟨value, st4⟩
        · rw [hrun] at hr
          simp only [hrun, except_bind_error]
          exact resultGood_error st _ hr
        · rw [hrun] at hr
          have hst4 : Good st4 := hr.1
          have hlen4 : st4.rest.length ≤ st3.rest.length := hr.2
          simp only [hrun, except_bind_ok]
          rcases expect_spec st4 .SEMICOLON hst4 with
            ⟨e, a, he5⟩ | ⟨t5, st5, he5, hst5, hwt5, hlen5, hcurr5, hty5⟩
          · simp only [he5, except_bind_error]
            exact resultGood_error st _ rfl
          · simp only [he5, except_bind_ok]
            exact resultGood_ok st _ st5 hst5 (by omega)

theorem parse_return_good (n : Nat) (rec : RecT) (hrec : RecGood n rec)
    (st : PState) (hst : Good st) (hfuel : 8 * st.rest.length + 2 ≤ n) :
    resultGood st (parse_return rec st) := by
  unfold parse_return
  rcases matchTok_spec st .SEMICOLON hst with
    hm | ⟨t1, st1, hm, hst1, hwt1, hlen1, hcurr1, hty1⟩
  · rw [hm]
    rcases consume_spec st hst with hc | ⟨t2, st2, hc, hst2, hwt2, hlen2, hcurr2⟩
    · simp only [hc, except_bind_error]
      exact resultGood_error st _ rfl
    · simp only [hc, except_bind_ok]
      have hr := hrec (.expression .LOWEST) st2 hst2 (by simp [modeRank]; omega)
      rcases hrun : rec (.expression .LOWEST) st2 with e | ⟨value, st3⟩
      · rw [hrun] at hr
        simp only [hrun, except_bind_error]
        exact resultGood_error st _ hr
      · rw [hrun] at hr
        have hst3 : Good st3 := hr.1
        have hlen3 : st3.rest.length ≤ st2.rest.length := hr.2
        simp only [hrun, except_bind_ok]
        rcases expect_spec st3 .SEMICOLON hst3 with
          ⟨e, a, he⟩ | ⟨t4, st4, he, hst4, hwt4, hlen4, hcurr4, hty4⟩
        · simp only [he, except_bind_error]
          exact resultGood_error st _ rfl
        · simp only [he, except_bind_ok]
          exact resultGood_ok st _ st4 hst4 (by omega)
  · rw [hm]
    exact resultGood_ok st _ st1 hst1 (by omega)

theorem parse_fn_def_good (n : Nat) (rec : RecT) (hrec : RecGood n rec)
    (st : PState) (hst : Good st) (hfuel : 8 * st.rest.length + 2 ≤ n) :
    resultGood st (parse_fn_def rec st) := by
  unfold parse_fn_def
  rcases expect_spec st .IDENTIFIER hst with
    ⟨e, a, he⟩ | ⟨t1, st1, he, hst1, hwt1, hlen1, hcurr1, hty1⟩
  · simp only [he, except_bind_error]
    exact resultGood_error st _ rfl
  · simp only [he, except_bind_ok]
    rcases expect_spec st1 .LEFT_PARENTHESIS hst1 with
      ⟨e, a, he2⟩ | ⟨t2, st2, he2, hst2, hwt2, hlen2, hcurr2, hty2⟩
    · simp only [he2, except_bind_error]
      exact resultGood_error st _ rfl
    · simp only [he2, except_bind_ok]
      rcases consume_spec st2 hst2 with hc | ⟨t3, st3, hc, hst3, hwt3, hlen3, hcurr3⟩
      · simp only [hc, except_bind_error]
        exact resultGood_error st _ rfl
      · simp only [hc, except_bind_ok]
        rcases fn_def_params_spec st3.rest.length st3.rest (le_refl _) []
            st3.curr hst3.2 hst3.1 with ⟨e, a, hp⟩ | ⟨l, st4, hp, hst4, hlen4⟩
        · simp only [hp, except_bind_error]
          exact resultGood_error st _ rfl
        · simp only [hp, except_bind_ok]
          rcases expect_spec st4 .LEFT_CURLY hst4 with
            ⟨e, a, he5⟩ | ⟨t5, st5, he5, hst5, hwt5, hlen5, hcurr5, hty5⟩
          · simp only [he5, except_bind_error]
            exact resultGood_error st _ rfl
          · simp only [he5, except_bind_ok]
            have hb := parse_block_good n rec hrec st5 hst5 (by omega)
            rcases hbr : parse_block rec st5 with e | ⟨body, st6⟩
            · rw [hbr] at hb
              simp only [hbr, except_bind_error]
              exact resultGood_error st _ hb
            · rw [hbr] at hb
              have hst6 : Good st6 := hb.1
              have hlen6 : st6.rest.length ≤ st5.rest.length := hb.2
              simp only [hbr, except_bind_ok]
              rcases expect_spec st6 .SEMICOLON hst6 with
                ⟨e, a, he7⟩ | ⟨t7, st7, he7, hst7, hwt7, hlen7, hcurr7, hty7⟩
              · simp only [he7, except_bind_error]
                exact resultGood_error st _ rfl
              · simp only [he7, except_bind_ok]
                exact resultGood_ok st _ st7 hst7 (by omega)

theorem parse_if_good (n : Nat) (rec : RecT) (hrec : RecGood n rec)
    (st : PState) (hst : Good st) (hfuel : 8 * st.rest.length + 2 ≤ n) :
    resultGood st (parse_if rec st) := by
  unfold parse_if
  rcases consume_spec st hst with hc | ⟨t1, st1, hc, hst1, hwt1, hlen1, hcurr1⟩
  · simp only [hc, except_bind_error]
    exact resultGood_error st _ rfl
  · simp only [hc, except_bind_ok]
    have hr := hrec (.expression .LOWEST) st1 hst1 (by simp [modeRank]; omega)
    rcases hrun : rec (.expression .LOWEST) st1 with e | ⟨condition, st2⟩
    · rw [hrun] at hr
      simp only [hrun, except_bind_error]
      exact resultGood_error st _ hr
    · rw [hrun] at hr
      have hst2 : Good st2 := hr.1
      have hlen2 : st2.rest.length ≤ st1.rest.length := hr.2
      simp only [hrun, except_bind_ok]
      rcases expect_spec st2 .LEFT_CURLY hst2 with
        ⟨e, a, he3⟩ | ⟨t3, st3, he3, hst3, hwt3, hlen3, hcurr3, hty3⟩
      · simp only [he3, except_bind_error]
        exact resultGood_error st _ rfl
      · simp only [he3, except_bind_ok]
        have hb := parse_block_good n rec hrec st3 hst3 (by omega)
        rcases hbr : parse_block rec st3 with e | ⟨consequence, st4⟩
        · rw [hbr] at hb
          simp only [hbr, except_bind_error]
          exact resultGood_error st _ hb
        · rw [hbr] at hb
          have hst4 : Good st4 := hb.1
          have hlen4 : st4.rest.length ≤ st3.rest.length := hb.2
          simp only [hbr, except_bind_ok]
          rcases consume_spec st4 hst4 with hc5 | ⟨t5, st5, hc5, hst5, hwt5, hlen5, hcurr5⟩
          · simp only [hc5, except_bind_error]
            exact resultGood_error st _ rfl
          · simp only [hc5, except_bind_ok]
            have hr6 := hrec (.ifLoop (condition, consequence) []) st5 hst5
              (by simp [modeRank]; omega)
            exact resultGood_weaken st st5 _ hr6 (by omega)

theorem parse_statement_good (n : Nat) (rec : RecT) (hrec : RecGood n rec)
    (st : PState) (hst : Good st) (hfuel : 8 * st.rest.length + 2 ≤ n) :
    resultGood st (parse_statement rec st) := by
  unfold parse_statement
  cases hty : st.curr.type <;>
    first
      | exact parse_if_good n rec hrec st hst hfuel
      | exact parse_return_good n rec hrec st hst hfuel
      | exact parse_let_good n rec hrec st hst hfuel
      | exact parse_fn_def_good n rec hrec st hst hfuel
      | exact parse_wrapper_good n rec hrec st hst hfuel

theorem bind_exprLoop_good (n : Nat) (rec : RecT) (hrec : RecGood n rec)
    (precedence : Precedence) (st : PState)
    (x : Except Error (Expression × PState)) (hx : resultGood st x)
    (hfuel : 8 * st.rest.length + 1 ≤ n) :
    resultGood st (x >>= fun p => rec (.exprLoop precedence p.1) p.2) := by
  cases x with
  | error e => exact hx
  | ok p =>
    obtain ⟨left, st1⟩ := p
    have hst1 : Good st1 := hx.1
    have hlen1 : st1.rest.length ≤ st.rest.length := hx.2
    have hr := hrec (.exprLoop precedence left) st1 hst1 (by simp [modeRank]; omega)
    exact resultGood_weaken st st1 _ hr hlen1

theorem parse_expression_good (n : Nat) (rec : RecT) (hrec : RecGood n rec)
    (precedence : Precedence) (st : PState) (hst : Good st)
    (hfuel : 8 * st.rest.length + 1 ≤ n) :
    resultGood st (parse_expression rec precedence st) := by
  unfold parse_expression
  cases hnud : nudRules st.curr.type with
  | none =>
    simp only [hnud, except_bind_error]
    exact resultGood_error st _ rfl
  | some rule =>
    cases rule <;>
      simp only [hnud] <;>
      exact bind_exprLoop_good n rec hrec precedence st _
        (by first
          | exact parse_identifier_good st hst
          | exact parse_leaf_good st hst
          | exact parse_unary_good n rec hrec st hst hnud hfuel
          | exact parse_grouped_good n rec hrec st hst hfuel
          | exact parse_block_good n rec hrec st hst (by omega)) hfuel

theorem expr_loop_good (n : Nat) (rec : RecT) (hrec : RecGood n rec)
    (precedence : Precedence) (left : Expression) (st : PState) (hst : Good st)
    (hfuel : 8 * st.rest.length ≤ n) :
    resultGood st (expr_loop rec precedence left st) := by
  unfold expr_loop
  cases hpk : st.rest.head? with
  | none =>
    simp only [hpk]
    exact resultGood_ok st _ st hst (le_refl _)
  | some peek =>
    simp only [hpk]
    by_cases h1 : (peek.type == .SEMICOLON) = true
    · rw [if_pos h1]
      exact resultGood_ok st _ st hst (le_refl _)
    rw [if_neg h1]
    by_cases h2 : decide (precedence.value ≥ st.get_peek_precedence.value) = true
    · rw [if_pos h2]
      exact resultGood_ok st _ st hst (le_refl _)
    rw [if_neg h2]
    cases hled : ledRules peek.type with
    | none =>
      simp only [hled]
      exact resultGood_ok st _ st hst (le_refl _)
    | some rule =>
      simp only [hled]
      rcases consume_spec st hst with hc | ⟨t, st1, hc, hst1, hwt, hlen1, hcurr⟩
      · simp only [hc, except_bind_error]
        exact resultGood_error st _ rfl
      · have htpeek : t = peek := by
          obtain ⟨curr, rest⟩ := st
          cases rest with
          | nil => cases hc
          | cons a r =>
            have ha : a = t := by
              have h := hc
              unfold PState.consume at h
              simp only [Except.ok.injEq, Prod.mk.injEq] at h
              exact h.1
            have hb : a = peek := by
              have h := hpk
              simp only [List.head?, Option.some.injEq] at h
              exact h
            rw [← ha, hb]
        have hcurrt : st1.curr = t := hcurr
        simp only [hc, except_bind_ok]
        cases rule with
        | binaryRule =>
          have hb : resultGood st1 (parse_binary rec left st1) :=
            parse_binary_good n rec hrec left st1 hst1
              (by rw [hcurrt, htpeek]; exact hled) (by omega)
          exact resultGood_weaken st st1 _
            (bind_exprLoop_good n rec hrec precedence st1 _ hb (by omega)) (by omega)
        | fnCallRule =>
          have hb : resultGood st1 (parse_fn_call rec left st1) :=
            parse_fn_call_good n rec hrec left st1 hst1 (by omega)
          exact resultGood_weaken st st1 _
            (bind_exprLoop_good n rec hrec precedence st1 _ hb (by omega)) (by omega)

theorem block_loop_good (n : Nat) (rec : RecT) (hrec : RecGood n rec)
    (acc : List Statement) (st : PState) (hst : Good st)
    (hfuel : 8 * st.rest.length ≤ n) :
    resultGood st (block_loop rec acc st) := by
  unfold block_loop
  rcases consume_spec st hst with hc | ⟨t, st1, hc, hst1, hwt, hlen1, hcurr⟩
  · simp only [hc, except_bind_error]
    exact resultGood_error st _ rfl
  · simp only [hc, except_bind_ok]
    by_cases h1 : (t.type == .RIGHT_CURLY) = true
    · rw [if_pos h1]
      exact resultGood_ok st _ st1 hst1 (by omega)
    · rw [if_neg h1]
      have hs := parse_statement_good n rec hrec st1 hst1 (by omega)
      rcases hsr : parse_statement rec st1 with e | ⟨s, st2⟩
      · rw [hsr] at hs
        simp only [hsr, except_bind_error]
        exact resultGood_error st _ hs
      · rw [hsr] at hs
        have hst2 : Good st2 := hs.1
        have hlen2 : st2.rest.length ≤ st1.rest.length := hs.2
        simp only [hsr, except_bind_ok]
        have hr := hrec (.blockLoop (acc ++ [s])) st2 hst2 (by simp [modeRank]; omega)
        exact resultGood_weaken st st2 _ hr (by omega)

theorem fn_call_loop_good (n : Nat) (rec : RecT) (hrec : RecGood n rec)
    (left : Expression) (args : List Expression) (st : PState) (hst : Good st)
    (hfuel : 8 * st.rest.length + 2 ≤ n) :
    resultGood st (fn_call_loop rec left args st) := by
  unfold fn_call_loop
  by_cases h1 : (st.curr.type == .RIGHT_PARENTHESIS) = true
  · rw [if_pos h1]
    exact fn_call_finish_good left args st hst
  rw [if_neg h1]
  have hr := hrec (.expression .LOWEST) st hst (by simp [modeRank]; omega)
  rcases hrun : rec (.expression .LOWEST) st with e | ⟨e1, st1⟩
  · rw [hrun] at hr
    simp only [hrun, except_bind_error]
    exact resultGood_error st _ hr
  · rw [hrun] at hr
    have hst1 : Good st1 := hr.1
    have hlen1 : st1.rest.length ≤ st.rest.length := hr.2
    simp only [hrun, except_bind_ok]
    rcases matchTok_spec st1 .COMMA hst1 with
      hm | ⟨t2, st2, hm, hst2, hwt2, hlen2, hcurr2, hty2⟩
    · simp only [hm]
      rcases expect_spec st1 .RIGHT_PARENTHESIS hst1 with
        ⟨e, a, he⟩ | ⟨t3, st3, he, hst3, hwt3, hlen3, hcurr3, hty3⟩
      · simp only [he, except_bind_error]
        exact resultGood_error st _ rfl
      · simp only [he, except_bind_ok]
        exact resultGood_weaken st st3 _
          (fn_call_finish_good left (args ++ [e1]) st3 hst3) (by omega)
    · simp only [hm]
      rcases expect_current_spec st2 .COMMA with ⟨e, a, he⟩ | ⟨t, he⟩
      · simp only [he, except_bind_error]
        exact resultGood_error st _ rfl
      · simp only [he, except_bind_ok]
        rcases consume_spec st2 hst2 with hc | ⟨t4, st4, hc, hst4, hwt4, hlen4, hcurr4⟩
        · simp only [hc, except_bind_error]
          exact resultGood_error st _ rfl
        · simp only [hc, except_bind_ok]
          have hr5 := hrec (.fnCallLoop left (args ++ [e1])) st4 hst4
            (by simp [modeRank]; omega)
          exact resultGood_weaken st st4 _ hr5 (by omega)

theorem if_loop_good (n : Nat) (rec : RecT) (hrec : RecGood n rec)
    (main : Expression × Expression) (alternatives : List (Expression × Expression))
    (st : PState) (hst : Good st) (hfuel : 8 * st.rest.length ≤ n) :
    resultGood st (if_loop rec main alternatives st) := by
  unfold if_loop
  by_cases h1 : (st.curr.type == .KEYWORD_ELSEIF) = true
  · rw [if_pos h1]
    rcases consume_spec st hst with hc | ⟨t1, st1, hc, hst1, hwt1, hlen1, hcurr1⟩
    · simp only [hc, except_bind_error]
      exact resultGood_error st _ rfl
    · simp only [hc, except_bind_ok]
      have hr := hrec (.expression .LOWEST) st1 hst1 (by simp [modeRank]; omega)
      rcases hrun : rec (.expression .LOWEST) st1 with e | ⟨condition, st2⟩
      · rw [hrun] at hr
        simp only [hrun, except_bind_error]
        exact resultGood_error st _ hr
      · rw [hrun] at hr
        have hst2 : Good st2 := hr.1
        have hlen2 : st2.rest.length ≤ st1.rest.length := hr.2
        simp only [hrun, except_bind_ok]
        rcases expect_spec st2 .LEFT_CURLY hst2 with
          ⟨e, a, he3⟩ | ⟨t3, st3, he3, hst3, hwt3, hlen3, hcurr3, hty3⟩
        · simp only [he3, except_bind_error]
          exact resultGood_error st _ rfl
        · simp only [he3, except_bind_ok]
          have hb := parse_block_good n rec hrec st3 hst3 (by omega)
          rcases hbr : parse_block rec st3 with e | ⟨consequence, st4⟩
          · rw [hbr] at hb
            simp only [hbr, except_bind_error]
            exact resultGood_error st _ hb
          · rw [hbr] at hb
            have hst4 : Good st4 := hb.1
            have hlen4 : st4.rest.length ≤ st3.rest.length := hb.2
            simp only [hbr, except_bind_ok]
            rcases consume_spec st4 hst4 with
              hc5 | ⟨t5, st5, hc5, hst5, hwt5, hlen5, hcurr5⟩
            · simp only [hc5, except_bind_error]
              exact resultGood_error st _ rfl
            · simp only [hc5, except_bind_ok]
              have hr6 := hrec (.ifLoop main (alternatives ++ [(condition, consequence)]))
                st5 hst5 (by simp [modeRank]; omega)
              exact resultGood_weaken st st5 _ hr6 (by omega)
  rw [if_neg h1]
  by_cases h2 : (st.curr.type == .KEYWORD_ELSE) = true
  · rw [if_pos h2]
    rcases expect_spec st .LEFT_CURLY hst with
      ⟨e, a, he⟩ | ⟨t1, st1, he, hst1, hwt1, hlen1, hcurr1, hty1⟩
    · simp only [he, except_bind_error]
      exact resultGood_error st _ rfl
    · simp only [he, except_bind_ok]
      have hb := parse_block_good n rec hrec st1 hst1 (by omega)
      rcases hbr : parse_block rec st1 with e | ⟨fallback, st2⟩
      · rw [hbr] at hb
        simp only [hbr, except_bind_error]
        exact resultGood_error st _ hb
      · rw [hbr] at hb
        have hst2 : Good st2 := hb.1
        have hlen2 : st2.rest.length ≤ st1.rest.length := hb.2
        simp only [hbr, except_bind_ok]
        rcases consume_spec st2 hst2 with hc3 | ⟨t3, st3, hc3, hst3, hwt3, hlen3, hcurr3⟩
        · simp only [hc3, except_bind_error]
          exact resultGood_error st _ rfl
        · simp only [hc3, except_bind_ok]
          rcases expect_current_spec st3 .SEMICOLON with ⟨e, a, he4⟩ | ⟨t4, he4⟩
          · simp only [he4, except_bind_error]
            exact resultGood_error st _ rfl
          · simp only [he4, except_bind_ok]
            exact resultGood_ok st _ st3 hst3 (by omega)
  rw [if_neg h2]
  rcases expect_current_spec st .SEMICOLON with ⟨e, a, he⟩ | ⟨t, he⟩
  · simp only [he, except_bind_error]
    exact resultGood_error st _ rfl
  · simp only [he, except_bind_ok]
    exact resultGood_ok st _ st hst (le_refl _)

theorem top_loop_good (n : Nat) (rec : RecT) (hrec : RecGood n rec)
    (acc : List Statement) (st : PState) (hst : Good st)
    (hfuel : 8 * st.rest.length + 2 ≤ n) :
    resultGood st (top_loop rec acc st) := by
  unfold top_loop
  have hs := parse_statement_good n rec hrec st hst hfuel
  rcases hsr : parse_statement rec st with e | ⟨s, st1⟩
  · rw [hsr] at hs
    simp only [hsr, except_bind_error]
    exact resultGood_error st _ hs
  · rw [hsr] at hs
    have hst1 : Good st1 := hs.1
    have hlen1 : st1.rest.length ≤ st.rest.length := hs.2
    simp only [hsr, except_bind_ok]
    rcases padvance_spec st1 hst1 with ⟨ha, hnil⟩ | ⟨st2, ha, hst2, hlen2⟩
    · rw [ha]
      exact resultGood_ok st _ st1 hst1 (by omega)
    · rw [ha]
      have hr := hrec (.topLoop (acc ++ [s])) st2 hst2 (by simp [modeRank]; omega)
      exact resultGood_weaken st st2 _ hr (by omega)

theorem run_good : ∀ n : Nat, RecGood n (run n) := by
  intro n
  induction n with
  | zero =>
    intro m st hst hn
    omega
  | succ n ih =>
    intro m st hst hn
    show resultGood st (step (run n) m st)
    cases m with
    | expression precedence =>
      exact parse_expression_good n (run n) ih precedence st hst
        (by have hn2 : 8 * st.rest.length + 1 < n + 1 := hn; omega)
    | exprLoop precedence left =>
      exact expr_loop_good n (run n) ih precedence left st hst
        (by have hn2 : 8 * st.rest.length + 0 < n + 1 := hn; omega)
    | blockLoop acc =>
      exact block_loop_good n (run n) ih acc st hst
        (by have hn2 : 8 * st.rest.length + 0 < n + 1 := hn; omega)
    | fnCallLoop left args =>
      exact fn_call_loop_good n (run n) ih left args st hst
        (by have hn2 : 8 * st.rest.length + 2 < n + 1 := hn; omega)
    | ifLoop main alternatives =>
      exact if_loop_good n (run n) ih main alternatives st hst
        (by have hn2 : 8 * st.rest.length + 0 < n + 1 := hn; omega)
    | topLoop acc =>
      exact top_loop_good n (run n) ih acc st hst
        (by have hn2 : 8 * st.rest.length + 2 < n + 1 := hn; omega)

theorem parse_good (tokens : List Token) (hwf : TokensWF tokens) :
    allowedResult (parse tokens) = true := by
  unfold parse
  rcases padvance_spec ⟨⟨.SEMICOLON, none⟩, tokens⟩ ⟨rfl, hwf⟩ with
    ⟨ha, hnil⟩ | ⟨st, ha, hst, hlen⟩
  · rw [ha]
    rfl
  · rw [ha]
    show allowedResult
      (Except.map (fun p => p.1) (run (parseFuel tokens) (.topLoop []) st)) = true
    have hcond : 8 * st.rest.length + modeRank (.topLoop []) < parseFuel tokens := by
      show 8 * st.rest.length + 2 < parseFuel tokens
      have h1 : st.rest.length + 1 = tokens.length := hlen
      unfold parseFuel
      omega
    have hr := run_good (parseFuel tokens) (.topLoop []) st hst hcond
    rcases hrun : run (parseFuel tokens) (.topLoop []) st with e | ⟨l, st'⟩
    · rw [hrun] at hr
      exact hr
    · rfl

/-- Claim C2, counterexample: tokenizing and parsing `"(a+b)(c);"` fails
with a failure kind that is neither `IllegalLexeme` nor `UnexpectedToken`:
the call rule's left expression is a `Binary` node, whose missing `.value`
attribute makes Python raise an `AttributeError` that escapes the parse
call. -/
theorem claim2_counterexample :
    tokenizeParse "(a+b)(c);" = .error (.AttributeError "Binary") := rfl

/-- Claim C2, amended: for every input string, a tokenize-then-parse call
either returns a complete list of statements or fails with exactly one of
`IllegalLexeme` (from the tokenizer), `UnexpectedToken` (from the parser),
or — when the call rule's callee expression is a `Binary`, `Block` or
nested-call node with no `.value` attribute — an `AttributeError`; the
internal `UNREACHABLE` `ValueError` branches are never hit, and no
partial result escapes. -/
theorem claim2_amended (source : String) :
    allowedResult (tokenizeParse source) = true := by
  unfold tokenizeParse
  rcases tokenize_spec source with ⟨s, hs⟩ | ⟨l, hl, hwf⟩
  · rw [hs]
    rfl
  · rw [hl]
    show allowedResult (parse l) = true
    exact parse_good l hwf
